import Mathlib

/-!
# Verification of the aside scaffolding CLI's core logic

A shallow embedding, in Lean 4, of the pure core of the `@google/aside`
repository: the set comparator (`src/compare.ts`), the line-based config
merge (`handleConfigMerge` in `src/app.ts`), the package helper
(`package-helper.ts`: dependency installation, script synchronisation,
manifest persistence and loading, package-name normalisation), and the
non-interactive prompt short-circuits (`querySelect` / `init` in
`src/app.ts`).

JavaScript data is modelled as follows: strings are Lean `String`s,
arrays are `List`s, objects (string-keyed maps in insertion order) are
association lists `List (String × _)`, `undefined` is `Option.none`,
thrown errors are `Except.error`, and external effects (the spawned
package installer, the filesystem) are passed in explicitly as values.
JSON documents are modelled by the `Json` inductive below, with numbers
restricted to integers (IEEE-754 doubles are outside the embedding).
-/

namespace Aside

/-! ## Set comparator (src/compare.ts) -/

/-- Models the iteration order of JavaScript `new Set(iterable)`: every
element is kept at its first occurrence and later duplicates are dropped.
`seen` is the set of elements already emitted. -/
def jsSetListAux {α : Type} [DecidableEq α] (seen : List α) : List α → List α
  | [] => []
  | x :: xs => if x ∈ seen then jsSetListAux seen xs else x :: jsSetListAux (x :: seen) xs

/-- The element list of `new Set(l)`, in iteration order. -/
def jsSetList {α : Type} [DecidableEq α] (l : List α) : List α := jsSetListAux [] l

/-- `ComparisonEntry` from src/compare.ts: an element together with its
membership in the left and right input. -/
structure ComparisonEntry (α : Type) where
  element : α
  left : Bool
  right : Bool
deriving DecidableEq

/-- `SetComparison` from src/compare.ts: the entry list produced by
`SetComparison.create`. -/
structure SetComparison (α : Type) where
  entries : List (ComparisonEntry α)
deriving DecidableEq

/-- The `left` getter: elements only in the left input. -/
def SetComparison.left {α : Type} (c : SetComparison α) : List α :=
  (c.entries.filter fun entry => entry.left && !entry.right).map fun entry => entry.element

/-- The `right` getter: elements only in the right input. -/
def SetComparison.right {α : Type} (c : SetComparison α) : List α :=
  (c.entries.filter fun entry => entry.right && !entry.left).map fun entry => entry.element

/-- The `both` getter: the set intersection of the inputs. -/
def SetComparison.both {α : Type} (c : SetComparison α) : List α :=
  (c.entries.filter fun entry => entry.left && entry.right).map fun entry => entry.element

/-- `SetComparison.create`: build `leftSet`, `rightSet` and their union as
JavaScript `Set`s, then record one entry per union element with its two
membership flags. -/
def SetComparison.create {α : Type} [DecidableEq α] (left right : List α) : SetComparison α :=
  let leftSet := jsSetList left
  let rightSet := jsSetList right
  let union := jsSetList (leftSet ++ rightSet)
  ⟨union.map fun element => ⟨element, decide (element ∈ leftSet), decide (element ∈ rightSet)⟩⟩

/-- The exported `compare` function of src/compare.ts. -/
def compareSets {α : Type} [DecidableEq α] (left right : List α) : SetComparison α :=
  SetComparison.create left right

/-! ## Config merge (handleConfigMerge in src/app.ts) -/

/-- JavaScript `Array.prototype.indexOf`: the index of the first
occurrence of `x`, or `-1` when `x` does not occur. -/
def jsIndexOf {α : Type} [DecidableEq α] : List α → α → Int
  | [], _ => -1
  | y :: ys, x =>
    if y = x then 0
    else if jsIndexOf ys x = -1 then -1 else jsIndexOf ys x + 1

/-- JavaScript `String.prototype.split('\n')` on the underlying
character list: split at every newline, keeping empty pieces. -/
def jsSplitNlChars : List Char → List (List Char)
  | [] => [[]]
  | c :: cs =>
    if c = '\n' then [] :: jsSplitNlChars cs
    else
      match jsSplitNlChars cs with
      | [] => [[c]]
      | l :: ls => (c :: l) :: ls

/-- JavaScript `String.prototype.split('\n')`. -/
def jsSplitNl (s : String) : List String := (jsSplitNlChars s.data).map String.mk

/-- JavaScript `Array.prototype.join(sep)`. -/
def jsJoin (sep : String) : List String → String
  | [] => ""
  | [s] => s
  | s :: rest => s ++ sep ++ jsJoin sep rest

/-- One iteration of the loop of `handleConfigMerge` (src/app.ts), for a
single merge-table entry.  `source` and `target` are the template and
target file contents (`none` = the file is absent, mirroring `readFile`
returning `undefined` on ENOENT); `confirm` is the injected answer the
confirmation query would return.  The result is `some c` when the file is
written with content `c`, and `none` when no write happens. -/
def handleMergeEntry (source target : Option String) (confirm : Bool) : Option String :=
  let sourceLines := source.map fun s => jsSplitNl s
  let targetLines := (target.map fun s => jsSplitNl s).getD []
  let missingLines :=
    (sourceLines.map fun lines => lines.filter fun item => jsIndexOf targetLines item == -1).getD []
  if missingLines = [] then none
  else if target.isSome && !confirm then none
  else
    let merged := targetLines ++ missingLines
    some (jsJoin "\n" (merged.filter fun item => item != "") ++ "\n")

/-! ## Package helper (package-helper.ts, the `PackageHelper` class) -/

/-- The in-memory manifest content (the fields of `type-fest`'s
`PackageJson` that the package helper reads or writes; maps are
association lists in insertion order, absent fields are `none`). -/
structure Manifest where
  name : Option String := none
  scripts : List (String × String) := []
  dependencies : Option (List (String × String)) := none
  devDependencies : Option (List (String × String)) := none
deriving DecidableEq

/-- JavaScript object spread `{...a, ...b}` on string-keyed maps: the keys
of `a` in order (values overridden by `b` on collision), followed by the
keys of `b` that are new. -/
def jsObjMerge (a b : List (String × String)) : List (String × String) :=
  (a.map fun p => (p.1, ((b.find? fun q => q.1 == p.1).map fun q => q.2).getD p.2)) ++
    b.filter fun q => !(a.any fun p => p.1 == q.1)

/-- `PackageHelper.getDependencies`: the dependency map, optionally
spread-merged with `devDependencies`. -/
def Manifest.getDependencies (m : Manifest) (includeDevDependencies : Bool) :
    List (String × String) :=
  let dependencies := m.dependencies.getD []
  if includeDevDependencies then jsObjMerge dependencies (m.devDependencies.getD [])
  else dependencies

/-- `PackageHelper.getDependencyPackages`: `Object.keys` of the
dependency map. -/
def Manifest.getDependencyPackages (m : Manifest) (includeDevDependencies : Bool) : List String :=
  (m.getDependencies includeDevDependencies).map fun p => p.1

/-- `PackageInstallResult` from package-helper.ts. -/
structure PackageInstallResult where
  requested : List String
  resolved : List String
  installed : List String
deriving DecidableEq

/-- `PackageHelper.installPackages`.  The two external effects are passed
in as values: `stderr` is the error stream the spawned `npm install`
produces (the spawn happens only on the branch that reaches it), and
`diskAfter` is the manifest `PackageHelper.load` finds on disk afterwards
(`none` = no package.json).  The first component of the result records
the package list handed to the installer (`none` = no process spawned);
the second is the new in-memory manifest and the install result, or the
thrown error. -/
def Manifest.installPackages (m : Manifest) (packages : List String) (stderr : String)
    (diskAfter : Option Manifest) :
    Option (List String) × Except String (Manifest × PackageInstallResult) :=
  let packagesToInstall := (compareSets (m.getDependencyPackages true) packages).right
  if packagesToInstall = [] then
    (none, Except.ok (m, ⟨packages, packages, []⟩))
  else if stderr != "" then
    (some packagesToInstall, Except.error stderr)
  else
    match diskAfter with
    | none => (some packagesToInstall, Except.error "Cannot find package.json")
    | some disk =>
      let packageDiff :=
        compareSets (m.getDependencyPackages true) (disk.getDependencyPackages true)
      (some packagesToInstall, Except.ok (disk, ⟨packages, packageDiff.both, packageDiff.right⟩))

/-! ## Script synchronisation (`PackageHelper.updateScripts`) -/

/-- JavaScript property read `obj[key]` on an association list
(`undefined` = `none`). -/
def jsLookup (m : List (String × String)) (k : String) : Option String :=
  (m.find? fun p => p.1 == k).map fun p => p.2

/-- JavaScript property write `obj[key] = v` on an association list:
overwrite in place when the key exists, append otherwise. -/
def jsSet (m : List (String × String)) (k v : String) : List (String × String) :=
  if m.any fun p => p.1 == k then m.map fun p => if p.1 == k then (p.1, v) else p
  else m ++ [(k, v)]

/-- JavaScript truthiness of `obj[key]` for a string property:
`undefined` and the empty string are falsy. -/
def jsTruthy : Option String → Bool
  | some s => s != ""
  | none => false

/-- The loop body of `PackageHelper.updateScripts`, iterated over the
target script table.  `cb` is the injected `existsCallback`
(conflict-resolution callback); the conflict test
`source && target && source !== target` is transcribed with JavaScript
truthiness of the two script strings.  Returns the updated scripts map
and the `modified` flag. -/
def updateScriptsGo (cb : String → String → String → Bool) :
    List (String × String) → List (String × String) → Bool → List (String × String) × Bool
  | scripts, [], modified => (scripts, modified)
  | scripts, (scriptName, target) :: rest, modified =>
    if jsTruthy (jsLookup scripts scriptName) && (target != "") &&
        !(jsLookup scripts scriptName == some target) then
      if cb scriptName ((jsLookup scripts scriptName).getD "") target then
        updateScriptsGo cb (jsSet scripts scriptName target) rest true
      else
        updateScriptsGo cb scripts rest modified
    else
      updateScriptsGo cb (jsSet scripts scriptName target) rest true

/-- `PackageHelper.updateScripts`: synchronise the target script table
into the manifest's scripts map, consulting `cb` on conflicts. -/
def updateScripts (scripts targetScripts : List (String × String))
    (cb : String → String → String → Bool) : List (String × String) × Bool :=
  updateScriptsGo cb scripts targetScripts false

/-- The script-synchroniser contract step, written after the spec's words
as amended: absent → write and mark dirty; present with an identical
command → the entry is rewritten with the same value (the map is
observably unchanged) and the dirty flag is still set; present with a
different command → consult the callback, overwriting on `true` and
leaving the entry untouched on `false`. -/
def updateScriptsSpecStep (cb : String → String → String → Bool)
    (acc : List (String × String) × Bool) (entry : String × String) :
    List (String × String) × Bool :=
  match jsLookup acc.1 entry.1 with
  | none => (jsSet acc.1 entry.1 entry.2, true)
  | some current =>
    if current = entry.2 then (jsSet acc.1 entry.1 entry.2, true)
    else if cb entry.1 current entry.2 then (jsSet acc.1 entry.1 entry.2, true)
    else (acc.1, acc.2)

/-! ## Package-name normalisation (`toPackageName` / `toValidName`) -/

/-- First replace of `toPackageName`: the global regex
`/([a-z])([A-Z])/g → '$1-$2'` inserts a dash between each ASCII
lowercase letter immediately followed by an ASCII uppercase letter. -/
def camelDash : List Char → List Char
  | [] => []
  | [c] => [c]
  | c₁ :: c₂ :: rest =>
    if c₁.isLower && c₂.isUpper then c₁ :: '-' :: camelDash (c₂ :: rest)
    else c₁ :: camelDash (c₂ :: rest)

/-- The character class `[\s_]` of the second replace: JavaScript `\s`
(whitespace, including the Unicode space separators, per ECMA-262) or an
underscore. -/
def isSpaceUnderscore (c : Char) : Bool :=
  c == ' ' || c == '\t' || c == '\n' || c == '\x0b' || c == '\x0c' ||
    c == '\r' || c == '\u00a0' || c == '\u1680' || c == '\u2000' || c == '\u2001' ||
    c == '\u2002' || c == '\u2003' || c == '\u2004' || c == '\u2005' || c == '\u2006' ||
    c == '\u2007' || c == '\u2008' || c == '\u2009' || c == '\u200a' || c == '\u2028' ||
    c == '\u2029' || c == '\u202f' || c == '\u205f' || c == '\u3000' || c == '\ufeff' ||
    c == '_'

/-- Second replace of `toPackageName`, with the flag recording whether the
previous character was part of a whitespace/underscore run. -/
def collapseSpaceAux : Bool → List Char → List Char
  | _, [] => []
  | prevSpace, c :: rest =>
    if isSpaceUnderscore c then
      if prevSpace then collapseSpaceAux true rest else '-' :: collapseSpaceAux true rest
    else c :: collapseSpaceAux false rest

/-- Second replace of `toPackageName`: the global regex `/[\s_]+/g → '-'`
collapses each run of whitespace/underscores into a single dash. -/
def collapseSpaceRuns (l : List Char) : List Char := collapseSpaceAux false l

/-- `toPackageName` (package-helper.ts): camelCase boundaries dashed,
whitespace/underscore runs collapsed to dashes, then lowercased.  Case
mapping is modelled per ASCII (`String.prototype.toLowerCase` restricted
to the Latin alphabet); the regex character classes `[a-z]`/`[A-Z]` are
ASCII in the source as well. -/
def toPackageName (s : String) : String :=
  String.mk (((collapseSpaceRuns (camelDash s.data)).map Char.toLower))

/-! ## JSON documents and the platform codec used by save/load

`PackageHelper.save` writes `JSON.stringify(content, null, '  ')` plus a
trailing newline; `PackageHelper.load` reads the file back through
`fs.readJsonSync` (`JSON.parse`).  The document model and the two codec
halves below follow ECMA-262's `JSON.stringify`/`JSON.parse` (the
platform primitives the source calls), with numbers restricted to
integers. -/

/-- A JSON document: objects are field lists in insertion order. -/
inductive Json where
  | null : Json
  | bool (b : Bool) : Json
  | num (n : Int) : Json
  | str (s : String) : Json
  | arr (elements : List Json) : Json
  | obj (fields : List (String × Json)) : Json

/-- The decimal digit character for `d < 10`. -/
def digitChar (d : Nat) : Char := Char.ofNat (48 + d)

/-- The lowercase hexadecimal digit character for `d < 16`. -/
def hexDigitChar (d : Nat) : Char :=
  if d < 10 then Char.ofNat (48 + d) else Char.ofNat (87 + d)

/-- Decimal rendering of a natural number, most significant digit first. -/
def natChars (n : Nat) : List Char :=
  if n = 0 then ['0'] else ((Nat.digits 10 n).map digitChar).reverse

/-- Decimal rendering of an integer, as `JSON.stringify` renders an
integral number. -/
def intChars (i : Int) : List Char :=
  if i < 0 then '-' :: natChars i.natAbs else natChars i.natAbs

/-- `QuoteJSONString`'s escape of one character: the two-character named
escapes, `\u00xx` for the remaining control characters, everything else
verbatim. -/
def escapeJsonChar (c : Char) : List Char :=
  if c = '"' then ['\\', '"']
  else if c = '\\' then ['\\', '\\']
  else if c = '\x08' then ['\\', 'b']
  else if c = '\x0c' then ['\\', 'f']
  else if c = '\n' then ['\\', 'n']
  else if c = '\r' then ['\\', 'r']
  else if c = '\t' then ['\\', 't']
  else if c.toNat < 32 then
    '\\' :: 'u' :: '0' :: '0' :: [hexDigitChar (c.toNat / 16), hexDigitChar (c.toNat % 16)]
  else [c]

/-- A quoted, escaped JSON string literal. -/
def quoteJsonString (s : List Char) : List Char :=
  '"' :: (s.flatMap escapeJsonChar ++ ['"'])

/-- The indentation produced by gap `'  '` (two spaces) at a nesting
depth. -/
def indentChars (depth : Nat) : List Char := List.replicate (2 * depth) ' '

mutual

/-- `JSON.stringify(v, null, '  ')` at nesting depth `depth`, as a
character list. -/
def serJson (depth : Nat) : Json → List Char
  | .num i => intChars i
  | .str s => quoteJsonString s.data
  | .null => 'n' :: ['u', 'l', 'l']
  | .bool true => 't' :: ['r', 'u', 'e']
  | .bool false => 'f' :: ['a', 'l', 's', 'e']
  | .arr [] => ['[', ']']
  | .arr (x :: xs) =>
    '[' :: '\n' :: (indentChars (depth + 1) ++ serJson (depth + 1) x ++
      serArrRest (depth + 1) xs ++ '\n' :: (indentChars depth ++ [']']))
  | .obj [] => ['\x7b', '\x7d']
  | .obj ((k, v) :: fs) =>
    '\x7b' :: '\n' :: (indentChars (depth + 1) ++ quoteJsonString k.data ++
      ':' :: ' ' :: (serJson (depth + 1) v ++ serObjRest (depth + 1) fs ++
        '\n' :: (indentChars depth ++ ['\x7d'])))

/-- The `, element` continuation lines of a stringified array. -/
def serArrRest (depth : Nat) : List Json → List Char
  | [] => []
  | x :: xs => ',' :: '\n' :: (indentChars depth ++ serJson depth x ++ serArrRest depth xs)

/-- The `, "key": value` continuation lines of a stringified object. -/
def serObjRest (depth : Nat) : List (String × Json) → List Char
  | [] => []
  | (k, v) :: fs =>
    ',' :: '\n' :: (indentChars depth ++ quoteJsonString k.data ++
      ':' :: ' ' :: (serJson depth v ++ serObjRest depth fs))

end

/-- The whitespace characters `JSON.parse` skips between tokens. -/
def isJsonWs (c : Char) : Bool := c == '\t' || c == '\n' || c == '\r' || c == ' '

/-- Skip inter-token whitespace. -/
def skipWs (cs : List Char) : List Char := cs.dropWhile isJsonWs

/-- The value of one hexadecimal digit character. -/
def hexVal (c : Char) : Option Nat :=
  if '0' ≤ c ∧ c ≤ '9' then some (c.toNat - 48)
  else if 'a' ≤ c ∧ c ≤ 'f' then some (c.toNat - 87)
  else if 'A' ≤ c ∧ c ≤ 'F' then some (c.toNat - 55)
  else none

/-- The code unit of a `\uXXXX` escape. -/
def hexVal4 (h₁ h₂ h₃ h₄ : Char) : Option Nat :=
  match hexVal h₁, hexVal h₂, hexVal h₃, hexVal h₄ with
  | some a, some b, some c, some d => some (4096 * a + 256 * b + 16 * c + d)
  | _, _, _, _ => none

/-- Parse the body of a JSON string literal after the opening quote:
returns the decoded characters and the input after the closing quote. -/
def parseStringBody : List Char → Option (List Char × List Char)
  | [] => none
  | c :: cs =>
    if c = '"' then some ([], cs)
    else if c = '\\' then
      match cs with
      | [] => none
      | e :: cs' =>
        if e = '"' then (parseStringBody cs').map fun r => ('"' :: r.1, r.2)
        else if e = '\\' then (parseStringBody cs').map fun r => ('\\' :: r.1, r.2)
        else if e = '/' then (parseStringBody cs').map fun r => ('/' :: r.1, r.2)
        else if e = 'b' then (parseStringBody cs').map fun r => ('\x08' :: r.1, r.2)
        else if e = 'f' then (parseStringBody cs').map fun r => ('\x0c' :: r.1, r.2)
        else if e = 'n' then (parseStringBody cs').map fun r => ('\n' :: r.1, r.2)
        else if e = 'r' then (parseStringBody cs').map fun r => ('\r' :: r.1, r.2)
        else if e = 't' then (parseStringBody cs').map fun r => ('\t' :: r.1, r.2)
        else if e = 'u' then
          match cs' with
          | h₁ :: h₂ :: h₃ :: h₄ :: cs'' =>
            match hexVal4 h₁ h₂ h₃ h₄ with
            | some code => (parseStringBody cs'').map fun r => (Char.ofNat code :: r.1, r.2)
            | none => none
          | _ => none
        else none
    else if c.toNat < 32 then none
    else (parseStringBody cs).map fun r => (c :: r.1, r.2)

/-- Parse a nonempty run of decimal digits into its value. -/
def parseDigits (cs : List Char) : Option (Nat × List Char) :=
  if cs.takeWhile Char.isDigit = [] then none
  else some ((cs.takeWhile Char.isDigit).foldl (fun a c => 10 * a + (c.toNat - 48)) 0,
    cs.dropWhile Char.isDigit)

mutual

/-- The token dispatch of `JSON.parse` on the first non-whitespace
character `c` (with `rest` the input after it). -/
def parseValueCore (fuel : Nat) (c : Char) (rest : List Char) : Option (Json × List Char) :=
  if c = 'n' then
    match rest with
    | 'u' :: 'l' :: 'l' :: rest' => some (Json.null, rest')
    | _ => none
  else if c = 't' then
    match rest with
    | 'r' :: 'u' :: 'e' :: rest' => some (Json.bool true, rest')
    | _ => none
  else if c = 'f' then
    match rest with
    | 'a' :: 'l' :: 's' :: 'e' :: rest' => some (Json.bool false, rest')
    | _ => none
  else if c = '"' then
    (parseStringBody rest).map fun r => (Json.str (String.mk r.1), r.2)
  else if c = '-' then
    (parseDigits rest).map fun r => (Json.num (-(r.1 : Int)), r.2)
  else if c.isDigit then
    (parseDigits (c :: rest)).map fun r => (Json.num (r.1 : Int), r.2)
  else if c = '[' then
    if (skipWs rest).head? = some ']' then some (Json.arr [], (skipWs rest).tail)
    else (parseElems fuel rest).map fun r => (Json.arr r.1, r.2)
  else if c = '\x7b' then
    if (skipWs rest).head? = some '\x7d' then some (Json.obj [], (skipWs rest).tail)
    else (parseFields fuel rest).map fun r => (Json.obj r.1, r.2)
  else none

/-- Parse one JSON value (integral numbers only), skipping leading
whitespace.  `fuel` bounds the number of nested grammar productions and
only ever runs out on inputs shorter than their own nesting. -/
def parseValue : Nat → List Char → Option (Json × List Char)
  | 0, _ => none
  | fuel + 1, cs =>
    match skipWs cs with
    | [] => none
    | c :: rest => parseValueCore fuel c rest

/-- Parse the element list of a nonempty array, up to and including the
closing bracket. -/
def parseElems : Nat → List Char → Option (List Json × List Char)
  | 0, _ => none
  | fuel + 1, cs =>
    match parseValue fuel cs with
    | none => none
    | some (v, rest) =>
      if (skipWs rest).head? = some ',' then
        (parseElems fuel (skipWs rest).tail).map fun r => (v :: r.1, r.2)
      else if (skipWs rest).head? = some ']' then some ([v], (skipWs rest).tail)
      else none

/-- Parse the field list of a nonempty object, up to and including the
closing brace. -/
def parseFields : Nat → List Char → Option (List (String × Json) × List Char)
  | 0, _ => none
  | fuel + 1, cs =>
    if (skipWs cs).head? = some '"' then
      match parseStringBody (skipWs cs).tail with
      | none => none
      | some (k, rest₁) =>
        if (skipWs rest₁).head? = some ':' then
          match parseValue fuel (skipWs rest₁).tail with
          | none => none
          | some (v, rest₂) =>
            if (skipWs rest₂).head? = some ',' then
              (parseFields fuel (skipWs rest₂).tail).map fun r =>
                ((String.mk k, v) :: r.1, r.2)
            else if (skipWs rest₂).head? = some '\x7d' then
              some ([(String.mk k, v)], (skipWs rest₂).tail)
            else none
        else none
    else none

end

mutual

/-- Fuel measure for the parser: the number of grammar productions in a
document. -/
def sizeJ : Json → Nat
  | .null => 1
  | .bool _ => 1
  | .num _ => 1
  | .str _ => 1
  | .arr xs => 1 + sizeL xs
  | .obj fs => 1 + sizeF fs

/-- Fuel measure for an array's element list. -/
def sizeL : List Json → Nat
  | [] => 1
  | x :: xs => 1 + sizeJ x + sizeL xs

/-- Fuel measure for an object's field list. -/
def sizeF : List (String × Json) → Nat
  | [] => 1
  | (_, v) :: fs => 1 + sizeJ v + sizeF fs

end

/-- `JSON.parse` on a whole document: one value, optionally surrounded by
whitespace. -/
def jsonParse (s : String) : Option Json :=
  match parseValue (s.length + 1) s.data with
  | some (v, rest) => if skipWs rest = [] then some v else none
  | none => none

/-- `PackageHelper.save`: the file content written for a manifest, namely
`JSON.stringify(content, null, '  ')` followed by one newline. -/
def saveContent (content : Json) : String := String.mk (serJson 0 content) ++ "\n"

/-- Reading a saved manifest file back through `JSON.parse`
(`fs.readJsonSync` on the written file). -/
def loadContent (file : String) : Option Json := jsonParse file

/-! ## Manifest load error semantics (`PackageHelper.load`, static) -/

/-- The outcome of `fs.readJsonSync`: a parsed document, or a thrown
error carrying an optional `code` property (`some "ENOENT"` = file not
found; JSON syntax errors carry no code). -/
inductive ReadJsonResult where
  | ok (value : Json)
  | err (code : Option String) (message : String)

/-- The static `PackageHelper.load` of package-helper.ts: an `ENOENT`
error becomes `undefined` (here `Except.ok none`), any other thrown error
is rethrown unchanged, and a parsed document becomes the loaded content. -/
def loadPackageJson : ReadJsonResult → Except (Option String × String) (Option Json)
  | .ok v => .ok (some v)
  | .err code message =>
    if code = some "ENOENT" then .ok none else .error (code, message)

/-! ## Non-interactive prompt short-circuits (src/app.ts) -/

/-- The option bundle of src/app.ts. -/
structure Options where
  yes : Bool
  no : Bool
  title : String
  ui : Bool
  uiFramework : Option String := none
deriving DecidableEq

/-- One config table of src/config.ts. -/
structure Config where
  dependencies : List String
  scripts : List (String × String)
  filesCopy : List (String × String)
  filesMerge : List (String × String)
deriving DecidableEq

/-- The base (no-UI) config table of src/config.ts. -/
def config : Config :=
  { dependencies :=
      ["@google/clasp@^2.5.0", "@rollup/plugin-commonjs@^28.0.9",
       "@rollup/plugin-node-resolve@^16.0.3", "@types/google-apps-script@^2.0.7",
       "@typescript-eslint/eslint-plugin@^8.46.2", "@vitest/coverage-v8@^4.0.4",
       "@vitest/ui@^4.0.4", "eslint@^9.38.0", "eslint-config-prettier@^10.1.8",
       "eslint-plugin-prettier@^5.5.4", "factory.ts@^1.4.2", "gts@^6.0.2",
       "license-check-and-add@^4.0.5", "ncp@^2.0.0", "prettier@^3.6.2", "rimraf@^6.0.1",
       "rollup@^4.52.5", "rollup-plugin-cleanup@^3.2.1", "rollup-plugin-license@^3.6.0",
       "rollup-plugin-prettier@^4.1.2", "rollup-plugin-typescript2@^0.36.0",
       "ts-node@^10.9.2", "typescript@^5.9.3", "vite@^7.1.12", "vitest@^4.0.4"],
    scripts :=
      [("clean", "rimraf build dist"),
       ("lint", "npm run license && eslint --fix --no-error-on-unmatched-pattern src/ test/"),
       ("format", "prettier --write --log-level silent ."),
       ("bundle", "rollup --no-treeshake -c rollup.config.mjs"),
       ("build", "npm run clean && npm run bundle && ncp appsscript.json dist/appsscript.json"),
       ("license", "license-check-and-add add -f license-config.json"),
       ("test", "npm run lint && npx tsc --noEmit && vitest run"),
       ("deploy",
        "npm run license && npm run build && ncp .clasp-dev.json .clasp.json && clasp push -f"),
       ("deploy:stg",
        "npm run test && npm run build && ncp .clasp-stg.json .clasp.json && clasp push"),
       ("deploy:prod",
        "npm run test && npm run build && ncp .clasp-prod.json .clasp.json && clasp push")],
    filesCopy :=
      [(".editorconfig", ".editorconfig"), (".eslintrc.json", ".eslintrc.json"),
       (".prettierrc.json", ".prettierrc.json"), ("jest.config.json", "jest.config.json"),
       ("LICENSE", "LICENSE"), ("license-config.json", "license-config.json"),
       ("license-header.txt", "license-header.txt"), ("rollup.config.mjs", "rollup.config.mjs"),
       ("tsconfig.json", "tsconfig.json")],
    filesMerge :=
      [("dist/.gitignore-target", ".gitignore"), (".claspignore", ".claspignore"),
       (".eslintignore", ".eslintignore"), (".prettierignore", ".prettierignore")] }

/-- The Angular config table of src/config.ts. -/
def configForAngular : Config :=
  { dependencies :=
      ["@angular/cli", "@google/clasp", "@types/google-apps-script", "@types/jest",
       "@typescript-eslint/eslint-plugin@^5.55.0", "eslint@^8.36.0", "eslint-config-prettier",
       "eslint-plugin-prettier", "fs-extra", "gts", "inquirer@^8.0.0", "jest",
       "license-check-and-add", "ncp", "prettier", "rimraf", "rollup", "rollup-plugin-cleanup",
       "rollup-plugin-license", "rollup-plugin-prettier", "rollup-plugin-typescript2", "ts-jest",
       "typescript"],
    scripts :=
      [("preinstall",
        "test -d src/ui || (cd src/ && ng new --skip-git --skip-tests=true --routing=false --ssr=false --standalone ui && cd ui/ && ng add --skip-confirmation @angular/material)"),
       ("clean", "rimraf build dist"),
       ("lint", "npm run license && eslint --fix --no-error-on-unmatched-pattern src/ test/"),
       ("bundle", "rollup --no-treeshake -c rollup.config.mjs"),
       ("build", "npm run clean && npm run bundle"),
       ("build-ui", "npm run build --prefix src/ui"),
       ("license", "license-check-and-add add -f license-config.json"),
       ("test", "jest test/ --passWithNoTests --detectOpenHandles"),
       ("test-ui", "npm run test --prefix src/ui"),
       ("deploy",
        "npm run lint && npm run test && npm run build && ncp appsscript.json dist/appsscript.json && ncp .clasp-dev.json .clasp.json && npm run build-ui && npm run deploy-ui && clasp push -f"),
       ("deploy-ui", "node deploy-ui.mjs"),
       ("deploy:prod",
        "npm run lint && npm run test && npm run build && ncp appsscript.json dist/appsscript.json && ncp .clasp-prod.json .clasp.json && npm run build-ui && npm run deploy-ui && clasp push"),
       ("serve-ui", "cd src/ui && ng serve"),
       ("fix-animations", "node fix-animations.mjs"),
       ("postinstall", "npm run fix-animations && cd src/ui && npm install")],
    filesCopy :=
      [(".editorconfig", ".editorconfig"), (".eslintrc.json", ".eslintrc.json"),
       (".prettierrc.json", ".prettierrc.json"), ("jest.config.json", "jest.config.json"),
       ("LICENSE", "LICENSE"), ("license-config.json", "license-config.json"),
       ("license-header.txt", "license-header.txt"), ("rollup.config.mjs", "rollup.config.mjs"),
       ("deploy-ui.mjs", "deploy-ui.mjs"), ("fix-animations.mjs", "fix-animations.mjs"),
       ("tsconfig.json", "tsconfig.json")],
    filesMerge :=
      [("dist/.gitignore-target", ".gitignore"), (".claspignore", ".claspignore"),
       (".eslintignore", ".eslintignore"), (".prettierignore", ".prettierignore")] }

/-- The Svelte config table of src/config.ts (spreads of the base
table). -/
def configForSvelte : Config :=
  { dependencies := config.dependencies ++ ["fs-extra@^11.1.0"],
    scripts :=
      jsObjMerge config.scripts
        [("preinstall", "node setup-svelte.mjs"),
         ("build-ui", "npm run build --prefix src/ui"),
         ("deploy-ui", "node deploy-ui.mjs src/ui/dist"),
         ("deploy",
          "npm run license && npm run build && ncp appsscript.json dist/appsscript.json && ncp .clasp-dev.json .clasp.json && npm run build-ui && npm run deploy-ui && clasp push -f"),
         ("deploy:prod",
          "npm run test && npm run build && ncp appsscript.json dist/appsscript.json && ncp .clasp-prod.json .clasp.json && npm run build-ui && npm run deploy-ui && clasp push"),
         ("serve-ui", "cd src/ui && npm run dev"),
         ("postinstall", "cd src/ui && npm install")],
    filesCopy :=
      jsObjMerge config.filesCopy
        [("deploy-ui.mjs", "deploy-ui.mjs"), ("setup-svelte.mjs", "setup-svelte.mjs")],
    filesMerge := config.filesMerge }

/-- The choice list `init` passes to the UI-framework selection. -/
def uiChoices : List (String × String) :=
  [("None", "none"), ("Angular", "angular"), ("Svelte", "svelte")]

/-- `querySelect` (src/app.ts): with assume-yes the answer is `'angular'`
(the documented legacy default), with assume-no it is `'none'`, and only
otherwise is the interactive prompt read.  `interactive` is the value the
prompt would produce were it shown; the Bool records whether the prompt
was read. -/
def querySelect (message : String) (choices : List (String × String)) (defaultVal : String)
    (options : Options) (interactive : String) : String × Bool :=
  if options.yes then ("angular", false)
  else if options.no then ("none", false)
  else (interactive, true)

/-- The branch of `init` (src/app.ts) that turns the UI-framework answer
into the selected config table and the updated option bundle. -/
def resolveUiSelection (uiFramework : String) (options : Options) : Config × Options :=
  if uiFramework = "angular" then
    (configForAngular, { options with ui := true, uiFramework := some "angular" })
  else if uiFramework = "svelte" then
    (configForSvelte, { options with ui := true, uiFramework := some "svelte" })
  else (config, { options with ui := false })

/-- The UI-framework selection step of `init`: the `querySelect` call
with default `'none'` followed by the config-table branch.  Returns the
selected table, the updated options and whether a prompt was read. -/
def initUiSelection (options : Options) (interactive : String) : Config × Options × Bool :=
  let sel := querySelect "Create a UI?" uiChoices "none" options interactive
  let res := resolveUiSelection sel.1 options
  (res.1, res.2, sel.2)

/-! ## Lemmas about the JavaScript set order -/

theorem jsSetListAux_nil {α : Type} [DecidableEq α] (seen : List α) :
    jsSetListAux seen ([] : List α) = [] := rfl

theorem jsSetListAux_cons {α : Type} [DecidableEq α] (seen : List α) (y : α) (ys : List α) :
    jsSetListAux seen (y :: ys) =
      if y ∈ seen then jsSetListAux seen ys else y :: jsSetListAux (y :: seen) ys := rfl

theorem mem_jsSetListAux {α : Type} [DecidableEq α] (seen l : List α) (x : α) :
    x ∈ jsSetListAux seen l ↔ x ∈ l ∧ x ∉ seen := by
  induction l generalizing seen with
  | nil => simp [jsSetListAux_nil]
  | cons y ys ih =>
    rw [jsSetListAux_cons]
    by_cases hy : y ∈ seen
    · rw [if_pos hy, ih]
      simp only [List.mem_cons]
      constructor
      · rintro ⟨h₁, h₂⟩; exact ⟨Or.inr h₁, h₂⟩
      · rintro ⟨h₁ | h₁, h₂⟩
        · exact absurd (h₁ ▸ hy) h₂
        · exact ⟨h₁, h₂⟩
    · rw [if_neg hy]
      simp only [List.mem_cons, ih]
      by_cases hxy : x = y
      · subst hxy; simp [hy]
      · simp [hxy]

theorem jsSetListAux_congr {α : Type} [DecidableEq α] {s t : List α} (l : List α)
    (h : ∀ y, y ∈ s ↔ y ∈ t) : jsSetListAux s l = jsSetListAux t l := by
  induction l generalizing s t with
  | nil => rfl
  | cons y ys ih =>
    rw [jsSetListAux_cons, jsSetListAux_cons]
    by_cases hy : y ∈ s
    · rw [if_pos hy, if_pos ((h y).1 hy)]
      exact ih h
    · rw [if_neg hy, if_neg (fun hc => hy ((h y).2 hc))]
      exact congrArg _ (ih fun z => by simp only [List.mem_cons, h z])

theorem nodup_jsSetListAux {α : Type} [DecidableEq α] (seen l : List α) :
    (jsSetListAux seen l).Nodup := by
  induction l generalizing seen with
  | nil => exact List.nodup_nil
  | cons y ys ih =>
    rw [jsSetListAux_cons]
    by_cases hy : y ∈ seen
    · rw [if_pos hy]; exact ih seen
    · rw [if_neg hy]
      refine List.nodup_cons.mpr ⟨fun hc => ?_, ih (y :: seen)⟩
      exact ((mem_jsSetListAux _ _ _).1 hc).2 (List.mem_cons_self y seen)

theorem jsSetListAux_append {α : Type} [DecidableEq α] (a b seen : List α) :
    jsSetListAux seen (a ++ b) = jsSetListAux seen a ++ jsSetListAux (a ++ seen) b := by
  induction a generalizing seen with
  | nil => simp [jsSetListAux_nil]
  | cons x a ih =>
    rw [List.cons_append, jsSetListAux_cons, jsSetListAux_cons]
    by_cases hx : x ∈ seen
    · rw [if_pos hx, if_pos hx, ih]
      refine congrArg _ (jsSetListAux_congr _ fun y => ?_)
      simp only [List.mem_append, List.cons_append, List.mem_cons]
      constructor
      · rintro (h | h)
        · exact Or.inr (Or.inl h)
        · exact Or.inr (Or.inr h)
      · rintro (rfl | h | h)
        · exact Or.inr hx
        · exact Or.inl h
        · exact Or.inr h
    · rw [if_neg hx, if_neg hx, ih (x :: seen), List.cons_append]
      refine congrArg _ (congrArg _ (jsSetListAux_congr _ fun y => ?_))
      simp only [List.mem_append, List.mem_cons]
      tauto

theorem jsSetListAux_idem {α : Type} [DecidableEq α] (s t l : List α) :
    jsSetListAux s (jsSetListAux t l) = jsSetListAux (s ++ t) l := by
  induction l generalizing s t with
  | nil => rfl
  | cons y ys ih =>
    rw [jsSetListAux_cons t, jsSetListAux_cons (s ++ t)]
    by_cases hyt : y ∈ t
    · rw [if_pos hyt, if_pos (List.mem_append.mpr (Or.inr hyt)), ih]
    · rw [if_neg hyt]
      by_cases hys : y ∈ s
      · rw [if_pos (List.mem_append.mpr (Or.inl hys)), jsSetListAux_cons, if_pos hys, ih]
        refine jsSetListAux_congr _ fun z => ?_
        simp only [List.mem_append, List.mem_cons]
        constructor
        · rintro (h | rfl | h)
          · exact Or.inl h
          · exact Or.inl hys
          · exact Or.inr h
        · rintro (h | h)
          · exact Or.inl h
          · exact Or.inr (Or.inr h)
      · rw [if_neg (fun hc => (List.mem_append.mp hc).elim hys hyt), jsSetListAux_cons,
          if_neg hys, ih]
        refine congrArg _ (jsSetListAux_congr _ fun z => ?_)
        simp only [List.mem_append, List.mem_cons]
        tauto

theorem jsSetListAux_of_nodup {α : Type} [DecidableEq α] (s l : List α) (h : l.Nodup) :
    jsSetListAux s l = l.filter fun x => !decide (x ∈ s) := by
  induction l generalizing s with
  | nil => rfl
  | cons y ys ih =>
    have hy : y ∉ ys := (List.nodup_cons.mp h).1
    have h' : ys.Nodup := (List.nodup_cons.mp h).2
    rw [jsSetListAux_cons, List.filter_cons]
    by_cases hs : y ∈ s
    · rw [if_pos hs, ih _ h']
      simp [hs]
    · rw [if_neg hs, ih _ h']
      have hfc : ys.filter (fun x => !decide (x ∈ y :: s)) =
          ys.filter fun x => !decide (x ∈ s) :=
        List.filter_congr fun x hx => by
          have hxy : x ≠ y := fun hc => hy (hc ▸ hx)
          simp [List.mem_cons, hxy]
      rw [hfc]
      simp [hs]

theorem mem_jsSetList {α : Type} [DecidableEq α] (l : List α) (x : α) :
    x ∈ jsSetList l ↔ x ∈ l := by
  rw [jsSetList, mem_jsSetListAux]
  simp

theorem nodup_jsSetList {α : Type} [DecidableEq α] (l : List α) : (jsSetList l).Nodup :=
  nodup_jsSetListAux [] l

theorem jsSetList_of_nodup {α : Type} [DecidableEq α] {l : List α} (h : l.Nodup) :
    jsSetList l = l := by
  rw [jsSetList, jsSetListAux_of_nodup [] l h]
  simp

theorem jsSetList_append {α : Type} [DecidableEq α] (a b : List α) :
    jsSetList (a ++ b) = jsSetList a ++ jsSetListAux a b := by
  rw [jsSetList, jsSetListAux_append]
  exact congrArg _ (jsSetListAux_congr _ fun y => by simp)

theorem jsSetListAux_eq_filter {α : Type} [DecidableEq α] (s l : List α) :
    jsSetListAux s l = (jsSetList l).filter fun x => !decide (x ∈ s) := by
  have h₁ : jsSetListAux s (jsSetListAux [] l) = jsSetListAux (s ++ []) l :=
    jsSetListAux_idem s [] l
  have h₂ : jsSetListAux (s ++ []) l = jsSetListAux s l :=
    jsSetListAux_congr _ fun y => by simp
  rw [← h₂, ← h₁]
  exact jsSetListAux_of_nodup s (jsSetList l) (nodup_jsSetList l)

theorem jsSetList_union {α : Type} [DecidableEq α] (A B : List α) :
    jsSetList (jsSetList A ++ jsSetList B) = jsSetList (A ++ B) := by
  rw [jsSetList_append (jsSetList A) (jsSetList B), jsSetList_of_nodup (nodup_jsSetList A),
    jsSetList_append A B]
  refine congrArg _ ?_
  rw [jsSetListAux_eq_filter (jsSetList A) (jsSetList B), jsSetList_of_nodup (nodup_jsSetList B),
    jsSetListAux_eq_filter A B]
  exact List.filter_congr fun x _ => by simp [mem_jsSetList]

/-! ## Lemmas about `SetComparison.create` -/

theorem create_entries {α : Type} [DecidableEq α] (A B : List α) :
    (SetComparison.create A B).entries =
      (jsSetList (A ++ B)).map fun x => ⟨x, decide (x ∈ A), decide (x ∈ B)⟩ := by
  show (jsSetList (jsSetList A ++ jsSetList B)).map _ = _
  rw [jsSetList_union]
  exact List.map_congr_left fun x _ => by
    simp only [ComparisonEntry.mk.injEq, true_and]
    exact ⟨decide_eq_decide.mpr (mem_jsSetList A x), decide_eq_decide.mpr (mem_jsSetList B x)⟩

theorem create_filterView {α : Type} [DecidableEq α] (A B : List α)
    (p : Bool → Bool → Bool) :
    ((SetComparison.create A B).entries.filter fun e => p e.left e.right).map
        (fun e => e.element) =
      (jsSetList (A ++ B)).filter fun x => p (decide (x ∈ A)) (decide (x ∈ B)) := by
  rw [create_entries, List.filter_map, List.map_map]
  have h : ∀ l : List α,
      l.map ((fun e : ComparisonEntry α => e.element) ∘
        fun x => ComparisonEntry.mk x (decide (x ∈ A)) (decide (x ∈ B))) = l := fun l =>
    List.map_id l
  rw [h]
  rfl

theorem create_left_eq {α : Type} [DecidableEq α] (A B : List α) :
    (SetComparison.create A B).left = (jsSetList A).filter fun x => !decide (x ∈ B) := by
  rw [SetComparison.left, create_filterView A B (fun a b => a && !b), jsSetList_append,
    List.filter_append]
  have h₁ : (jsSetList A).filter (fun x => decide (x ∈ A) && !decide (x ∈ B)) =
      (jsSetList A).filter fun x => !decide (x ∈ B) :=
    List.filter_congr fun x hx => by
      simp [(mem_jsSetList A x).1 hx]
  have h₂ : (jsSetListAux A B).filter (fun x => decide (x ∈ A) && !decide (x ∈ B)) = [] :=
    List.filter_eq_nil_iff.mpr fun x hx => by
      simp [((mem_jsSetListAux A B x).1 hx).2]
  rw [h₁, h₂, List.append_nil]

theorem create_right_eq {α : Type} [DecidableEq α] (A B : List α) :
    (SetComparison.create A B).right = (jsSetList B).filter fun x => !decide (x ∈ A) := by
  rw [SetComparison.right, create_filterView A B (fun a b => b && !a), jsSetList_append,
    List.filter_append]
  have h₁ : (jsSetList A).filter (fun x => decide (x ∈ B) && !decide (x ∈ A)) = [] :=
    List.filter_eq_nil_iff.mpr fun x hx => by
      simp [(mem_jsSetList A x).1 hx]
  have h₂ : (jsSetListAux A B).filter (fun x => decide (x ∈ B) && !decide (x ∈ A)) =
      jsSetListAux A B :=
    List.filter_eq_self.mpr fun x hx => by
      simp [((mem_jsSetListAux A B x).1 hx).1, ((mem_jsSetListAux A B x).1 hx).2]
  rw [h₁, h₂, List.nil_append, jsSetListAux_eq_filter]

theorem create_both_eq {α : Type} [DecidableEq α] (A B : List α) :
    (SetComparison.create A B).both = (jsSetList A).filter fun x => decide (x ∈ B) := by
  rw [SetComparison.both, create_filterView A B (fun a b => a && b), jsSetList_append,
    List.filter_append]
  have h₁ : (jsSetList A).filter (fun x => decide (x ∈ A) && decide (x ∈ B)) =
      (jsSetList A).filter fun x => decide (x ∈ B) :=
    List.filter_congr fun x hx => by
      simp [(mem_jsSetList A x).1 hx]
  have h₂ : (jsSetListAux A B).filter (fun x => decide (x ∈ A) && decide (x ∈ B)) = [] :=
    List.filter_eq_nil_iff.mpr fun x hx => by
      simp [((mem_jsSetListAux A B x).1 hx).2]
  rw [h₁, h₂, List.append_nil]

/-- C4: for every two finite input collections `A` and `B`, the comparison
holds exactly one entry per distinct element of the union, in first-seen
order across `A` then `B`, with the `left`/`right` flags recording
membership in `A`/`B` (so `left || right` always holds), and the three
views are exactly the left-only, right-only and common elements in that
order.  Totality is by construction (`SetComparison.create` is a total
function). -/
theorem setComparator_invariant {α : Type} [DecidableEq α] (A B : List α) :
    (SetComparison.create A B).entries =
        ((jsSetList (A ++ B)).map fun x => ⟨x, decide (x ∈ A), decide (x ∈ B)⟩)
      ∧ ((SetComparison.create A B).entries.map fun e => e.element).Nodup
      ∧ (∀ e ∈ (SetComparison.create A B).entries, e.left = true ∨ e.right = true)
      ∧ (SetComparison.create A B).left = ((jsSetList A).filter fun x => !decide (x ∈ B))
      ∧ (SetComparison.create A B).right = ((jsSetList B).filter fun x => !decide (x ∈ A))
      ∧ (SetComparison.create A B).both = ((jsSetList A).filter fun x => decide (x ∈ B)) := by
  refine ⟨create_entries A B, ?_, ?_, create_left_eq A B, create_right_eq A B,
    create_both_eq A B⟩
  · rw [create_entries, List.map_map]
    have h : (jsSetList (A ++ B)).map
        ((fun e : ComparisonEntry α => e.element) ∘
          fun x => ComparisonEntry.mk x (decide (x ∈ A)) (decide (x ∈ B))) =
        jsSetList (A ++ B) := List.map_id _
    rw [h]
    exact nodup_jsSetList (A ++ B)
  · intro e he
    rw [create_entries] at he
    obtain ⟨x, hx, rfl⟩ := List.mem_map.mp he
    have hx' : x ∈ A ∨ x ∈ B := List.mem_append.mp ((mem_jsSetList (A ++ B) x).1 hx)
    rcases hx' with h | h
    · exact Or.inl (by simp [h])
    · exact Or.inr (by simp [h])

/-- Witness for C4 at a concrete input. -/
theorem setComparator_invariant_witness :
    (SetComparison.create ["a", "b"] ["b", "c"]).left = ["a"]
      ∧ (SetComparison.create ["a", "b"] ["b", "c"]).right = ["c"]
      ∧ (SetComparison.create ["a", "b"] ["b", "c"]).both = ["b"] := by
  have h := setComparator_invariant ["a", "b"] ["b", "c"]
  refine ⟨?_, ?_, ?_⟩
  · rw [h.2.2.2.1]; decide
  · rw [h.2.2.2.2.1]; decide
  · rw [h.2.2.2.2.2]; decide

/-- Counterexample for C5 as stated: the `both` views of `compare(A,B)`
and `compare(B,A)` are ordered lists and differ in order when the two
inputs list their common elements in different orders. -/
theorem setComparator_both_order_counterexample :
    (SetComparison.create ["x", "y"] ["y", "x"]).both ≠
      (SetComparison.create ["y", "x"] ["x", "y"]).both := by
  decide

/-- C5 (amended): the left-only view of `compare(A,B)` equals the
right-only view of `compare(B,A)` as ordered lists; the `both` views of
`compare(A,B)` and `compare(B,A)` agree as sets (they are permutations of
each other, each listing every common element exactly once), but not as
ordered lists. -/
theorem setComparator_symmetry {α : Type} [DecidableEq α] (A B : List α) :
    (SetComparison.create A B).left = (SetComparison.create B A).right
      ∧ (SetComparison.create A B).both.Perm (SetComparison.create B A).both := by
  constructor
  · rw [create_left_eq, create_right_eq]
  · rw [create_both_eq, create_both_eq]
    rw [List.perm_ext_iff_of_nodup ((nodup_jsSetList A).filter _) ((nodup_jsSetList B).filter _)]
    intro x
    simp only [List.mem_filter, mem_jsSetList, decide_eq_true_eq]
    exact ⟨fun ⟨h₁, h₂⟩ => ⟨h₂, h₁⟩, fun ⟨h₁, h₂⟩ => ⟨h₂, h₁⟩⟩

/-! ## Lemmas about the config merge -/

theorem jsIndexOf_neg_one_or_nonneg {α : Type} [DecidableEq α] (l : List α) (x : α) :
    jsIndexOf l x = -1 ∨ 0 ≤ jsIndexOf l x := by
  induction l with
  | nil => exact Or.inl rfl
  | cons y ys ih =>
    rw [jsIndexOf]
    by_cases h : y = x
    · rw [if_pos h]; exact Or.inr le_rfl
    · rw [if_neg h]
      rcases ih with h₁ | h₁
      · rw [if_pos h₁]; exact Or.inl rfl
      · rw [if_neg (by omega)]; exact Or.inr (by omega)

theorem jsIndexOf_eq_neg_one_iff {α : Type} [DecidableEq α] (l : List α) (x : α) :
    jsIndexOf l x = -1 ↔ x ∉ l := by
  induction l with
  | nil => simp [jsIndexOf]
  | cons y ys ih =>
    rw [jsIndexOf]
    by_cases h : y = x
    · rw [if_pos h]
      simp [h]
    · rw [if_neg h]
      by_cases h₁ : jsIndexOf ys x = -1
      · rw [if_pos h₁]
        simp only [List.mem_cons, true_iff]
        rintro (rfl | hc)
        · exact h rfl
        · exact (ih.mp h₁) hc
      · rw [if_neg h₁]
        rcases jsIndexOf_neg_one_or_nonneg ys x with h₂ | h₂
        · exact absurd h₂ h₁
        · simp only [List.mem_cons]
          constructor
          · intro hc; omega
          · intro hc
            exact absurd (ih.mpr fun hm => hc (Or.inr hm)) h₁

/-- The membership test `targetLines.indexOf(item) === -1` of the merge
loop is plain non-membership. -/
theorem missingLines_eq_filter (S T : List String) :
    (S.filter fun item => jsIndexOf T item == -1) =
      S.filter fun item => !decide (item ∈ T) := by
  refine List.filter_congr fun item _ => ?_
  by_cases h : item ∈ T
  · have : jsIndexOf T item ≠ -1 := fun hc => (jsIndexOf_eq_neg_one_iff T item).mp hc h
    simp [this, h]
  · have : jsIndexOf T item = -1 := (jsIndexOf_eq_neg_one_iff T item).mpr h
    simp [this, h]

/-- C1: for a merge-table entry with template lines `S` and target lines
`T` (empty when the target is absent), the missing lines are exactly the
elements of `S` that do not occur in `T`, in template order, once per
occurrence; nothing is written when the missing list is empty; and when
something is missing and the target is absent or the confirmation answer
is true, the written content is `T ++ missing` with empty lines dropped,
joined by newline, plus one trailing newline. -/
theorem configMerge_spec (template : String) (target : Option String) (confirm : Bool) :
    ((jsSplitNl template).filter
        (fun item => jsIndexOf ((target.map fun t => jsSplitNl t).getD []) item == -1) =
      (jsSplitNl template).filter
        (fun item => !decide (item ∈ (target.map fun t => jsSplitNl t).getD [])))
    ∧ ((jsSplitNl template).filter
          (fun item => !decide (item ∈ (target.map fun t => jsSplitNl t).getD [])) = [] →
        handleMergeEntry (some template) target confirm = none)
    ∧ ((jsSplitNl template).filter
          (fun item => !decide (item ∈ (target.map fun t => jsSplitNl t).getD [])) ≠ [] →
        (target = none ∨ confirm = true) →
        handleMergeEntry (some template) target confirm =
          some (jsJoin "\n"
            (((((target.map fun t => jsSplitNl t).getD []) ++
              (jsSplitNl template).filter
                (fun item =>
                  !decide (item ∈ (target.map fun t => jsSplitNl t).getD []))).filter
              fun item => item != "")) ++ "\n")) := by
  refine ⟨missingLines_eq_filter _ _, ?_, ?_⟩
  · intro h
    simp only [handleMergeEntry, Option.map_some', Option.getD_some]
    rw [missingLines_eq_filter, h]
    simp
  · intro h hc
    simp only [handleMergeEntry, Option.map_some', Option.getD_some]
    rw [missingLines_eq_filter]
    rw [if_neg h]
    have hsk : (target.isSome && !confirm) = false := by
      rcases hc with rfl | rfl
      · rfl
      · simp
    rw [hsk]
    simp

/-- Witness for C1 at the spec's example: template lines `a b c`, target
line `b`. -/
theorem configMerge_spec_witness :
    (jsSplitNl "a\nb\nc").filter
        (fun item => !decide (item ∈ ((some "b").map fun t => jsSplitNl t).getD [])) ≠ []
      ∧ handleMergeEntry (some "a\nb\nc") (some "b") true = some "b\na\nc\n" := by
  refine ⟨by decide, ?_⟩
  have h := (configMerge_spec "a\nb\nc" (some "b") true).2.2 (by decide) (Or.inr rfl)
  rw [h]
  decide

/-! ## Lemmas about dependency installation -/

/-- C3: when every requested package already appears among the current
dependency names (dev included), `installPackages` spawns no process,
leaves the manifest unchanged and returns
`{requested, resolved = requested, installed = []}`. -/
theorem installPackages_noop (m : Manifest) (packages : List String) (stderr : String)
    (diskAfter : Option Manifest)
    (h : ∀ p ∈ packages, p ∈ m.getDependencyPackages true) :
    m.installPackages packages stderr diskAfter =
      (none, Except.ok (m, ⟨packages, packages, []⟩)) := by
  have hright : (compareSets (m.getDependencyPackages true) packages).right = [] := by
    rw [compareSets, create_right_eq]
    exact List.filter_eq_nil_iff.mpr fun x hx => by
      simp [h x ((mem_jsSetList packages x).1 hx)]
  simp only [Manifest.installPackages, hright]
  simp

/-- Witness for C3: both requested packages are already declared (one of
them as a dev dependency). -/
theorem installPackages_noop_witness :
    Manifest.installPackages
        { dependencies := some [("pkg1", "v1")], devDependencies := some [("pkg2", "v2")] }
        ["pkg1", "pkg2"] "" none =
      (none, Except.ok
        ({ dependencies := some [("pkg1", "v1")], devDependencies := some [("pkg2", "v2")] },
          ⟨["pkg1", "pkg2"], ["pkg1", "pkg2"], []⟩)) :=
  installPackages_noop _ _ _ _ (by decide)

/-- C2: when some requested package is missing, `installPackages` hands
the installer exactly the missing names (first-seen order, deduplicated);
on an empty error stream and successful reload it returns the requested
list, `resolved` = the pre-install names also present on disk, and
`installed` = the names only present on disk, and replaces the in-memory
manifest with the on-disk one. -/
theorem installPackages_installs (m disk : Manifest) (packages : List String)
    (h : ∃ p ∈ packages, p ∉ m.getDependencyPackages true) :
    m.installPackages packages "" (some disk) =
      (some ((jsSetList packages).filter fun p => !decide (p ∈ m.getDependencyPackages true)),
        Except.ok (disk,
          ⟨packages,
            (jsSetList (m.getDependencyPackages true)).filter
              (fun p => decide (p ∈ disk.getDependencyPackages true)),
            (jsSetList (disk.getDependencyPackages true)).filter
              fun p => !decide (p ∈ m.getDependencyPackages true)⟩)) := by
  have hright : (compareSets (m.getDependencyPackages true) packages).right =
      (jsSetList packages).filter fun p => !decide (p ∈ m.getDependencyPackages true) := by
    rw [compareSets, create_right_eq]
  have hne : (compareSets (m.getDependencyPackages true) packages).right ≠ [] := by
    rw [hright]
    obtain ⟨p, hp, hnp⟩ := h
    intro hc
    have hm : p ∈ (jsSetList packages).filter
        fun x => !decide (x ∈ m.getDependencyPackages true) :=
      List.mem_filter.mpr ⟨(mem_jsSetList packages p).2 hp, by simp [hnp]⟩
    rw [hc] at hm
    exact absurd hm (List.not_mem_nil p)
  simp only [Manifest.installPackages, if_neg hne]
  rw [hright, compareSets, create_both_eq, create_right_eq]
  rfl

/-- Witness for C2 at the spec's example: `dependencies = {pkg1}`,
request `[pkg1, pkg2]`, on-disk result `{pkg1, pkg2}`. -/
theorem installPackages_installs_witness :
    Manifest.installPackages { dependencies := some [("pkg1", "v1")] } ["pkg1", "pkg2"] ""
        (some { dependencies := some [("pkg1", "v1"), ("pkg2", "v2")] }) =
      (some ["pkg2"], Except.ok
        ({ dependencies := some [("pkg1", "v1"), ("pkg2", "v2")] },
          ⟨["pkg1", "pkg2"], ["pkg1"], ["pkg2"]⟩)) := by
  rw [installPackages_installs _ _ _ ⟨"pkg2", by decide, by decide⟩]
  rfl

/-! ## Lemmas about script synchronisation -/

theorem jsLookup_mem (scripts : List (String × String)) (k v : String)
    (h : jsLookup scripts k = some v) : ∃ p ∈ scripts, p.2 = v ∧ (p.1 == k) = true := by
  rw [jsLookup] at h
  cases hf : scripts.find? fun p => p.1 == k with
  | none => rw [hf] at h; exact absurd h (by simp)
  | some q =>
    rw [hf] at h
    refine ⟨q, List.mem_of_find?_eq_some hf, ?_, by simpa using List.find?_some hf⟩
    simpa using h

theorem jsSet_snd_ne (scripts : List (String × String)) (k v : String) (hv : v ≠ "")
    (hs : ∀ p ∈ scripts, p.2 ≠ "") : ∀ p ∈ jsSet scripts k v, p.2 ≠ "" := by
  intro p hp
  rw [jsSet] at hp
  by_cases hk : (scripts.any fun q => q.1 == k) = true
  · rw [if_pos hk] at hp
    obtain ⟨q, hq, hpq⟩ := List.mem_map.mp hp
    by_cases h : (q.1 == k) = true
    · rw [if_pos h] at hpq; rw [← hpq]; exact hv
    · rw [if_neg h] at hpq; rw [← hpq]; exact hs q hq
  · rw [if_neg hk] at hp
    rcases List.mem_append.mp hp with h | h
    · exact hs p h
    · rw [List.mem_singleton.mp h]; exact hv

theorem map_set_eq_self (scripts : List (String × String)) (k v : String)
    (hnd : (scripts.map Prod.fst).Nodup) (h : jsLookup scripts k = some v) :
    (scripts.map fun p => if p.1 == k then (p.1, v) else p) = scripts := by
  induction scripts with
  | nil => rfl
  | cons p ps ih =>
    have hnd' : (ps.map Prod.fst).Nodup := by
      rw [List.map_cons, List.nodup_cons] at hnd
      exact hnd.2
    have hfst : p.1 ∉ ps.map Prod.fst := by
      rw [List.map_cons, List.nodup_cons] at hnd
      exact hnd.1
    by_cases hk : (p.1 == k) = true
    · have hfind : List.find? (fun q => q.1 == k) (p :: ps) = some p :=
        List.find?_cons_of_pos _ hk
      rw [jsLookup, hfind, Option.map_some'] at h
      have hv : v = p.2 := (Option.some.injEq _ _).mp h.symm
      have hps : (ps.map fun q => if q.1 == k then (q.1, v) else q) = ps := by
        have hid : (ps.map fun q => if q.1 == k then (q.1, v) else q) = ps.map id := by
          refine List.map_congr_left fun q hq => ?_
          have hqk : ¬(q.1 == k) = true := by
            intro hc
            apply hfst
            have hq1 : q.1 = p.1 := by
              rw [beq_iff_eq] at hk hc
              rw [hc, hk]
            exact hq1 ▸ List.mem_map_of_mem Prod.fst hq
          rw [if_neg hqk]
          rfl
        rw [hid, List.map_id]
      calc (p :: ps).map (fun q => if q.1 == k then (q.1, v) else q)
          = (if p.1 == k then (p.1, v) else p) ::
              (ps.map fun q => if q.1 == k then (q.1, v) else q) := rfl
        _ = (p.1, v) :: ps := by rw [if_pos hk, hps]
        _ = p :: ps := by rw [hv]
    · have hfind : List.find? (fun q => q.1 == k) (p :: ps) =
          List.find? (fun q => q.1 == k) ps :=
        List.find?_cons_of_neg _ hk
      rw [jsLookup, hfind] at h
      calc (p :: ps).map (fun q => if q.1 == k then (q.1, v) else q)
          = (if p.1 == k then (p.1, v) else p) ::
              (ps.map fun q => if q.1 == k then (q.1, v) else q) := rfl
        _ = p :: ps := by rw [if_neg hk, ih hnd' (by rw [jsLookup]; exact h)]

theorem jsSet_lookup_self (scripts : List (String × String)) (k v : String)
    (hnd : (scripts.map Prod.fst).Nodup) (h : jsLookup scripts k = some v) :
    jsSet scripts k v = scripts := by
  obtain ⟨p, hp, _, hpk⟩ := jsLookup_mem scripts k v h
  have hk : (scripts.any fun q => q.1 == k) = true :=
    List.any_eq_true.mpr ⟨p, hp, hpk⟩
  rw [jsSet, if_pos hk]
  exact map_set_eq_self scripts k v hnd h

theorem updateScriptsGo_cons (cb : String → String → String → Bool)
    (scripts rest : List (String × String)) (name target : String) (modified : Bool) :
    updateScriptsGo cb scripts ((name, target) :: rest) modified =
      if jsTruthy (jsLookup scripts name) && (target != "") &&
          !(jsLookup scripts name == some target) then
        if cb name ((jsLookup scripts name).getD "") target then
          updateScriptsGo cb (jsSet scripts name target) rest true
        else updateScriptsGo cb scripts rest modified
      else updateScriptsGo cb (jsSet scripts name target) rest true := rfl

theorem updateScriptsGo_spec (cb : String → String → String → Bool) :
    ∀ (table scripts : List (String × String)) (modified : Bool),
      (∀ p ∈ scripts, p.2 ≠ "") → (∀ p ∈ table, p.2 ≠ "") →
      updateScriptsGo cb scripts table modified =
        table.foldl (updateScriptsSpecStep cb) (scripts, modified) := by
  intro table
  induction table with
  | nil => intro scripts modified _ _; rfl
  | cons entry rest ih =>
    intro scripts modified hs ht
    obtain ⟨name, target⟩ := entry
    have htarget : target ≠ "" := ht (name, target) (List.mem_cons_self _ _)
    have hrest : ∀ p ∈ rest, p.2 ≠ "" := fun p hp => ht p (List.mem_cons_of_mem _ hp)
    have hset : ∀ p ∈ jsSet scripts name target, p.2 ≠ "" :=
      jsSet_snd_ne scripts name target htarget hs
    rw [updateScriptsGo_cons, List.foldl_cons]
    cases hsrc : jsLookup scripts name with
    | none =>
      have hstep : updateScriptsSpecStep cb (scripts, modified) (name, target) =
          (jsSet scripts name target, true) := by
        rw [updateScriptsSpecStep, hsrc]
      rw [hstep]
      have hcond : (jsTruthy (none : Option String) && (target != "") &&
          !((none : Option String) == some target)) = false := rfl
      rw [hcond, if_neg Bool.false_ne_true]
      exact ih (jsSet scripts name target) true hset hrest
    | some current =>
      have hcur : current ≠ "" := by
        obtain ⟨p, hp, hpv, _⟩ := jsLookup_mem scripts name current hsrc
        exact hpv ▸ hs p hp
      by_cases heq : current = target
      · have hstep : updateScriptsSpecStep cb (scripts, modified) (name, target) =
            (jsSet scripts name target, true) := by
          rw [updateScriptsSpecStep, hsrc]
          exact if_pos heq
        rw [hstep]
        have hcond : (jsTruthy (some current) && (target != "") &&
            !((some current : Option String) == some target)) = false := by
          subst heq
          simp
        rw [hcond, if_neg Bool.false_ne_true]
        exact ih (jsSet scripts name target) true hset hrest
      · have hstep : updateScriptsSpecStep cb (scripts, modified) (name, target) =
            if cb name current target then (jsSet scripts name target, true)
            else (scripts, modified) := by
          rw [updateScriptsSpecStep, hsrc]
          exact if_neg heq
        rw [hstep]
        have hcond : (jsTruthy (some current) && (target != "") &&
            !((some current : Option String) == some target)) = true := by
          simp [jsTruthy, hcur, htarget, heq]
        rw [hcond, if_pos rfl]
        simp only [Option.getD_some]
        by_cases hcb : cb name current target = true
        · rw [if_pos hcb, if_pos hcb]
          exact ih (jsSet scripts name target) true hset hrest
        · rw [if_neg hcb, if_neg hcb]
          exact ih scripts modified hs hrest

/-- Counterexample for C6 as stated: a script already present with an
identical command is reassigned and still marks the result as modified
(dirty), where the claim demands no mutation and no dirty marking. -/
theorem updateScripts_identical_marks_dirty :
    updateScripts [("test", "A")] [("test", "A")] (fun _ _ _ => false) =
      ([("test", "A")], true) := rfl

/-- C6 (amended): processing the target table in order satisfies: a name
absent from the manifest scripts is set and the dirty flag becomes true;
a name present with an identical command is rewritten with the same value
(so the map is observably unchanged, as the second conjunct states) but
the dirty flag is still set; a name present with a different command
consults the conflict callback, overwriting and marking dirty on `true`
and leaving the entry untouched on `false`.  All commands are assumed
non-empty (JavaScript truthiness makes the source skip the callback for
empty strings) and script names unique, as in a JavaScript object. -/
theorem updateScripts_contract (scripts table : List (String × String))
    (cb : String → String → String → Bool)
    (hnd : (scripts.map Prod.fst).Nodup)
    (hs : ∀ p ∈ scripts, p.2 ≠ "") (ht : ∀ p ∈ table, p.2 ≠ "") :
    updateScripts scripts table cb = table.foldl (updateScriptsSpecStep cb) (scripts, false)
      ∧ ∀ name current, jsLookup scripts name = some current →
          jsSet scripts name current = scripts :=
  ⟨updateScriptsGo_spec cb table scripts false hs ht,
    fun name current h => jsSet_lookup_self scripts name current hnd h⟩

/-- Witness for C6 at the spec's example: scripts `{test: A}`, table
`{test: B, lint: C}`, callback always declining. -/
theorem updateScripts_contract_witness :
    updateScripts [("test", "A")] [("test", "B"), ("lint", "C")] (fun _ _ _ => false) =
      ([("test", "A"), ("lint", "C")], true) := by
  have h := (updateScripts_contract [("test", "A")] [("test", "B"), ("lint", "C")]
    (fun _ _ _ => false) (by decide) (by decide) (by decide)).1
  rw [h]
  rfl

/-! ## Manifest load error semantics -/

/-- C8: `PackageHelper.load` returns the absent value exactly when the
read fails with ENOENT; every other failure is rethrown carrying the
underlying error (and then no manifest value is returned); a successful
read yields the parsed content. -/
theorem loadPackageJson_error_semantics (r : ReadJsonResult) :
    (loadPackageJson r = Except.ok none ↔
        ∃ message, r = ReadJsonResult.err (some "ENOENT") message)
      ∧ (∀ code message, code ≠ some "ENOENT" →
          loadPackageJson (ReadJsonResult.err code message) = Except.error (code, message))
      ∧ (∀ v, r = ReadJsonResult.ok v → loadPackageJson r = Except.ok (some v)) := by
  refine ⟨?_, ?_, ?_⟩
  · cases r with
    | ok v => simp [loadPackageJson]
    | err code message =>
      by_cases h : code = some "ENOENT"
      · subst h
        simp [loadPackageJson]
      · simp [loadPackageJson, h]
  · intro code message h
    simp [loadPackageJson, h]
  · rintro v rfl
    rfl

/-- Witness for C8: a permission error is rethrown, a JSON syntax error
(no code) is rethrown, ENOENT is absorbed. -/
theorem loadPackageJson_error_semantics_witness :
    loadPackageJson (ReadJsonResult.err (some "EACCES") "permission denied") =
        Except.error (some "EACCES", "permission denied")
      ∧ loadPackageJson (ReadJsonResult.err none "Unexpected token") =
          Except.error (none, "Unexpected token")
      ∧ loadPackageJson (ReadJsonResult.err (some "ENOENT") "no such file") =
          Except.ok none :=
  ⟨(loadPackageJson_error_semantics (ReadJsonResult.err (some "EACCES") "permission denied")).2.1
      (some "EACCES") "permission denied" (by decide),
   (loadPackageJson_error_semantics (ReadJsonResult.err none "Unexpected token")).2.1
      none "Unexpected token" (by decide),
   (loadPackageJson_error_semantics (ReadJsonResult.err (some "ENOENT") "no such file")).1.mpr
      ⟨"no such file", rfl⟩⟩

/-! ## Package-name normalisation -/

theorem uint32_le_iff (a b : UInt32) : a ≤ b ↔ a.toNat ≤ b.toNat := by
  rw [UInt32.le_def, BitVec.le_def]
  rfl

theorem char_isUpper_iff (c : Char) : c.isUpper = true ↔ 65 ≤ c.toNat ∧ c.toNat ≤ 90 := by
  simp only [Char.isUpper, Bool.and_eq_true, decide_eq_true_eq]
  constructor
  · rintro ⟨h₁, h₂⟩
    exact ⟨(uint32_le_iff _ _).1 h₁, (uint32_le_iff _ _).1 h₂⟩
  · rintro ⟨h₁, h₂⟩
    exact ⟨(uint32_le_iff _ _).2 h₁, (uint32_le_iff _ _).2 h₂⟩

theorem char_toNat_ofNat (n : Nat) (h : n < 55296) : (Char.ofNat n).toNat = n := by
  simp only [Char.ofNat, Nat.isValidChar]
  rw [dif_pos (Or.inl h)]
  rfl

theorem toLower_of_upper (c : Char) (h : c.isUpper = true) :
    Char.toLower c = Char.ofNat (c.toNat + 32) := by
  obtain ⟨h₁, h₂⟩ := (char_isUpper_iff c).1 h
  show (if c.toNat ≥ 65 ∧ c.toNat ≤ 90 then Char.ofNat (c.toNat + 32) else c) =
    Char.ofNat (c.toNat + 32)
  exact if_pos ⟨h₁, h₂⟩

theorem toLower_of_not_upper (c : Char) (h : c.isUpper = false) : Char.toLower c = c := by
  show (if c.toNat ≥ 65 ∧ c.toNat ≤ 90 then Char.ofNat (c.toNat + 32) else c) = c
  refine if_neg fun hc => ?_
  have hup := (char_isUpper_iff c).2 ⟨hc.1, hc.2⟩
  rw [h] at hup
  exact Bool.false_ne_true hup

theorem isUpper_toLower (c : Char) : (Char.toLower c).isUpper = false := by
  by_cases h : c.isUpper = true
  · rw [toLower_of_upper c h]
    obtain ⟨h₁, h₂⟩ := (char_isUpper_iff c).1 h
    have ht : (Char.ofNat (c.toNat + 32)).toNat = c.toNat + 32 :=
      char_toNat_ofNat _ (by omega)
    cases hx : (Char.ofNat (c.toNat + 32)).isUpper
    · rfl
    · obtain ⟨hx₁, hx₂⟩ := (char_isUpper_iff _).1 hx
      rw [ht] at hx₁ hx₂
      omega
  · have h' : c.isUpper = false := by revert h; cases c.isUpper <;> simp
    rw [toLower_of_not_upper c h']
    exact h'

theorem toLower_idem (c : Char) : Char.toLower (Char.toLower c) = Char.toLower c :=
  toLower_of_not_upper _ (isUpper_toLower c)

theorem isSpaceUnderscore_letter (n : Nat)
    (h : 65 ≤ n ∧ n ≤ 90 ∨ 97 ≤ n ∧ n ≤ 122) :
    isSpaceUnderscore (Char.ofNat n) = false := by
  rcases h with ⟨h₁, h₂⟩ | ⟨h₁, h₂⟩ <;> interval_cases n <;> decide

theorem isSpaceUnderscore_toLower (c : Char) (h : isSpaceUnderscore c = false) :
    isSpaceUnderscore (Char.toLower c) = false := by
  by_cases hu : c.isUpper = true
  · rw [toLower_of_upper c hu]
    obtain ⟨h₁, h₂⟩ := (char_isUpper_iff c).1 hu
    exact isSpaceUnderscore_letter _ (Or.inr ⟨by omega, by omega⟩)
  · rw [toLower_of_not_upper c (by revert hu; cases c.isUpper <;> simp)]
    exact h

theorem collapseAux_no_space (l : List Char) :
    ∀ (b : Bool) (c : Char), c ∈ collapseSpaceAux b l → isSpaceUnderscore c = false := by
  induction l with
  | nil => intro b c hc; simp [collapseSpaceAux] at hc
  | cons x rest ih =>
    intro b c hc
    rw [collapseSpaceAux] at hc
    by_cases hx : isSpaceUnderscore x = true
    · rw [if_pos hx] at hc
      cases b with
      | true => exact ih true c (by simpa using hc)
      | false =>
        rcases List.mem_cons.mp (by simpa using hc) with rfl | hc'
        · decide
        · exact ih true c hc'
    · have hx' : isSpaceUnderscore x = false := by revert hx; cases isSpaceUnderscore x <;> simp
      rw [if_neg hx] at hc
      rcases List.mem_cons.mp hc with rfl | hc'
      · exact hx'
      · exact ih false c hc'

theorem collapse_no_space (l : List Char) :
    ∀ c ∈ collapseSpaceRuns l, isSpaceUnderscore c = false :=
  collapseAux_no_space l false

theorem collapseAux_eq_self (l : List Char) (h : ∀ c ∈ l, isSpaceUnderscore c = false) :
    ∀ b, collapseSpaceAux b l = l := by
  induction l with
  | nil => intro b; rfl
  | cons x rest ih =>
    intro b
    have hx : isSpaceUnderscore x = false := h x (List.mem_cons_self _ _)
    rw [collapseSpaceAux, if_neg (by simp [hx]),
      ih (fun c hc => h c (List.mem_cons_of_mem _ hc)) false]

theorem collapse_eq_self (l : List Char) (h : ∀ c ∈ l, isSpaceUnderscore c = false) :
    collapseSpaceRuns l = l :=
  collapseAux_eq_self l h false

theorem camelDash_eq_self : ∀ (l : List Char), (∀ c ∈ l, c.isUpper = false) → camelDash l = l
  | [], _ => rfl
  | [_], _ => rfl
  | c₁ :: c₂ :: rest, h => by
    have h₂ : c₂.isUpper = false := h c₂ (List.mem_cons_of_mem _ (List.mem_cons_self _ _))
    rw [camelDash, if_neg (by simp [h₂]),
      camelDash_eq_self (c₂ :: rest) fun c hc => h c (List.mem_cons_of_mem _ hc)]

/-- C9: `toPackageName` (`toValidName`) is idempotent: its output has no
uppercase ASCII letter (so the camelCase replace does nothing on a second
pass) and no whitespace/underscore (so the collapsing replace does
nothing), and lowercasing is itself idempotent. -/
theorem toPackageName_idempotent (s : String) :
    toPackageName (toPackageName s) = toPackageName s := by
  rw [toPackageName, toPackageName]
  refine congrArg String.mk ?_
  have hdata : (String.mk ((collapseSpaceRuns (camelDash s.data)).map Char.toLower)).data =
      (collapseSpaceRuns (camelDash s.data)).map Char.toLower := rfl
  rw [hdata]
  set z := (collapseSpaceRuns (camelDash s.data)).map Char.toLower with hz
  have hnu : ∀ c ∈ z, c.isUpper = false := by
    intro c hc
    obtain ⟨c', _, rfl⟩ := List.mem_map.mp hc
    exact isUpper_toLower c'
  have hns : ∀ c ∈ z, isSpaceUnderscore c = false := by
    intro c hc
    obtain ⟨c', hc', rfl⟩ := List.mem_map.mp hc
    exact isSpaceUnderscore_toLower c' (collapse_no_space _ c' hc')
  rw [camelDash_eq_self z hnu, collapse_eq_self z hns]
  have hfix : ∀ c ∈ z, Char.toLower c = c := by
    intro c hc
    obtain ⟨c', _, rfl⟩ := List.mem_map.mp hc
    exact toLower_idem c'
  calc z.map Char.toLower = z.map id := List.map_congr_left hfix
    _ = z := List.map_id z

/-! ## Non-interactive UI selection -/

/-- C10: with assume-yes set, the UI-framework selection short-circuits
to `'angular'` whatever default is passed (init passes `'none'`),
selecting the Angular config table with `ui = true` and
`uiFramework = 'angular'`; with assume-no set (and assume-yes unset — the
source checks `yes` first), it short-circuits to `'none'`, selecting the
base config with `ui = false`; in neither case is the interactive prompt
read. -/
theorem assumeFlags_uiSelection (options : Options) (interactive defaultVal : String) :
    (options.yes = true →
      querySelect "Create a UI?" uiChoices defaultVal options interactive = ("angular", false)
        ∧ initUiSelection options interactive =
            (configForAngular, { options with ui := true, uiFramework := some "angular" },
              false))
      ∧ (options.yes = false → options.no = true →
        querySelect "Create a UI?" uiChoices defaultVal options interactive = ("none", false)
          ∧ initUiSelection options interactive =
              (config, { options with ui := false }, false)) := by
  constructor
  · intro hy
    refine ⟨by rw [querySelect, if_pos hy], ?_⟩
    simp [initUiSelection, querySelect, resolveUiSelection, hy]
  · intro hy hn
    refine ⟨by rw [querySelect, if_neg (by simp [hy]), if_pos hn], ?_⟩
    simp [initUiSelection, querySelect, resolveUiSelection, hy, hn]

/-- Witness for C10: a fully non-interactive assume-yes run selects
Angular, an assume-no run selects the base config, both without reading
the prompt. -/
theorem assumeFlags_uiSelection_witness :
    initUiSelection { yes := true, no := false, title := "T", ui := false } "svelte" =
        (configForAngular,
          { yes := true, no := false, title := "T", ui := true,
            uiFramework := some "angular" }, false)
      ∧ initUiSelection { yes := false, no := true, title := "T", ui := false } "svelte" =
          (config, { yes := false, no := true, title := "T", ui := false }, false) :=
  ⟨((assumeFlags_uiSelection
      { yes := true, no := false, title := "T", ui := false } "svelte" "none").1 rfl).2,
   ((assumeFlags_uiSelection
      { yes := false, no := true, title := "T", ui := false } "svelte" "none").2 rfl rfl).2⟩

/-! ## Lemmas: the JSON codec -/

theorem skipWs_cons_of_neg {c : Char} (cs : List Char) (h : isJsonWs c = false) :
    skipWs (c :: cs) = c :: cs := by
  rw [skipWs, List.dropWhile_cons, h, if_neg Bool.false_ne_true]

theorem skipWs_append_of_ws (ws s : List Char) (h : ∀ c ∈ ws, isJsonWs c = true) :
    skipWs (ws ++ s) = skipWs s := by
  induction ws with
  | nil => rfl
  | cons c cs ih =>
    rw [List.cons_append, skipWs, List.dropWhile_cons, h c (List.mem_cons_self _ _),
      if_pos rfl]
    exact ih fun d hd => h d (List.mem_cons_of_mem _ hd)

theorem indentChars_ws (d : Nat) : ∀ c ∈ indentChars d, isJsonWs c = true := by
  intro c hc
  rw [indentChars] at hc
  rw [List.eq_of_mem_replicate hc]
  decide

theorem nlIndent_ws (d : Nat) : ∀ c ∈ '\n' :: indentChars d, isJsonWs c = true := by
  intro c hc
  rcases List.mem_cons.mp hc with rfl | hc'
  · decide
  · exact indentChars_ws d c hc'

theorem parseValue_ws (fuel : Nat) (ws s : List Char) (h : ∀ c ∈ ws, isJsonWs c = true) :
    parseValue fuel (ws ++ s) = parseValue fuel s := by
  cases fuel with
  | zero => simp only [parseValue]
  | succ f =>
    simp only [parseValue]
    rw [skipWs_append_of_ws ws s h]

theorem parseValue_cons (fuel : Nat) (c : Char) (cs : List Char) (h : isJsonWs c = false) :
    parseValue (fuel + 1) (c :: cs) = parseValueCore fuel c cs := by
  simp only [parseValue]
  rw [skipWs_cons_of_neg cs h]

theorem char_toNat_inj {a b : Char} (h : a.toNat = b.toNat) : a = b := by
  rw [← Char.ofNat_toNat a, ← Char.ofNat_toNat b, h]

theorem isJsonWs_toNat (c : Char) :
    isJsonWs c = true ↔ c.toNat = 32 ∨ c.toNat = 9 ∨ c.toNat = 10 ∨ c.toNat = 13 := by
  rw [isJsonWs]
  simp only [Bool.or_eq_true, beq_iff_eq]
  constructor
  · rintro (((rfl | rfl) | rfl) | rfl) <;> simp
  · rintro (h | h | h | h)
    · exact Or.inr (char_toNat_inj h)
    · exact Or.inl (Or.inl (Or.inl (char_toNat_inj h)))
    · exact Or.inl (Or.inl (Or.inr (char_toNat_inj h)))
    · exact Or.inl (Or.inr (char_toNat_inj h))

theorem isJsonWs_eq_false (c : Char)
    (h : ¬(c.toNat = 32 ∨ c.toNat = 9 ∨ c.toNat = 10 ∨ c.toNat = 13)) :
    isJsonWs c = false := by
  cases hb : isJsonWs c
  · rfl
  · exact absurd ((isJsonWs_toNat c).1 hb) h

theorem char_isDigit_iff (c : Char) : c.isDigit = true ↔ 48 ≤ c.toNat ∧ c.toNat ≤ 57 := by
  simp only [Char.isDigit, Bool.and_eq_true, decide_eq_true_eq]
  constructor
  · rintro ⟨h₁, h₂⟩
    exact ⟨(uint32_le_iff _ _).1 h₁, (uint32_le_iff _ _).1 h₂⟩
  · rintro ⟨h₁, h₂⟩
    exact ⟨(uint32_le_iff _ _).2 h₁, (uint32_le_iff _ _).2 h₂⟩

theorem digit_ne (c : Char) (h : c.isDigit = true) (m : Char)
    (hm : m.toNat < 48 ∨ 57 < m.toNat) : c ≠ m := by
  intro hc
  subst hc
  have := (char_isDigit_iff c).1 h
  omega

theorem isJsonWs_of_digit (c : Char) (h : c.isDigit = true) : isJsonWs c = false := by
  have := (char_isDigit_iff c).1 h
  exact isJsonWs_eq_false c (by omega)

theorem hexVal_hexDigitChar (d : Nat) (h : d < 16) : hexVal (hexDigitChar d) = some d := by
  interval_cases d <;> decide

theorem hexVal4_escape (c : Char) (h : c.toNat < 32) :
    hexVal4 '0' '0' (hexDigitChar (c.toNat / 16)) (hexDigitChar (c.toNat % 16)) =
      some c.toNat := by
  have hd₁ : hexVal (hexDigitChar (c.toNat / 16)) = some (c.toNat / 16) :=
    hexVal_hexDigitChar _ (by omega)
  have hd₂ : hexVal (hexDigitChar (c.toNat % 16)) = some (c.toNat % 16) :=
    hexVal_hexDigitChar _ (by omega)
  show (match hexVal '0', hexVal '0', hexVal (hexDigitChar (c.toNat / 16)),
      hexVal (hexDigitChar (c.toNat % 16)) with
    | some a, some b, some c', some d => some (4096 * a + 256 * b + 16 * c' + d)
    | _, _, _, _ => none) = some c.toNat
  rw [hd₁, hd₂, show hexVal '0' = some 0 from rfl]
  show some (4096 * 0 + 256 * 0 + 16 * (c.toNat / 16) + c.toNat % 16) = some c.toNat
  congr 1
  omega

theorem parseStringBody_escape : ∀ (s rest : List Char),
    parseStringBody (s.flatMap escapeJsonChar ++ '"' :: rest) = some (s, rest)
  | [], rest => by
    rw [List.flatMap_nil, List.nil_append, parseStringBody.eq_def]
    simp
  | c :: cs, rest => by
    rw [List.flatMap_cons, List.append_assoc]
    by_cases h₁ : c = '"'
    · subst h₁
      rw [parseStringBody.eq_def]
      simp [escapeJsonChar, parseStringBody_escape cs rest]
    · by_cases h₂ : c = '\\'
      · subst h₂
        rw [parseStringBody.eq_def]
        simp [escapeJsonChar, parseStringBody_escape cs rest]
      · by_cases h₃ : c = '\x08'
        · subst h₃
          rw [parseStringBody.eq_def]
          simp [escapeJsonChar, parseStringBody_escape cs rest]
        · by_cases h₄ : c = '\x0c'
          · subst h₄
            rw [parseStringBody.eq_def]
            simp [escapeJsonChar, parseStringBody_escape cs rest]
          · by_cases h₅ : c = '\n'
            · subst h₅
              rw [parseStringBody.eq_def]
              simp [escapeJsonChar, parseStringBody_escape cs rest]
            · by_cases h₆ : c = '\r'
              · subst h₆
                rw [parseStringBody.eq_def]
                simp [escapeJsonChar, parseStringBody_escape cs rest]
              · by_cases h₇ : c = '\t'
                · subst h₇
                  rw [parseStringBody.eq_def]
                  simp [escapeJsonChar, parseStringBody_escape cs rest]
                · by_cases h₉ : c.toNat < 32
                  · have hesc : escapeJsonChar c =
                        ['\\', 'u', '0', '0', hexDigitChar (c.toNat / 16),
                          hexDigitChar (c.toNat % 16)] := by
                      simp only [escapeJsonChar]
                      rw [if_neg h₁, if_neg h₂, if_neg h₃, if_neg h₄, if_neg h₅, if_neg h₆,
                        if_neg h₇, if_pos h₉]
                    rw [hesc, parseStringBody.eq_def]
                    simp [hexVal4_escape c h₉, parseStringBody_escape cs rest,
                      Char.ofNat_toNat]
                  · have hesc : escapeJsonChar c = [c] := by
                      simp only [escapeJsonChar]
                      rw [if_neg h₁, if_neg h₂, if_neg h₃, if_neg h₄, if_neg h₅, if_neg h₆,
                        if_neg h₇, if_neg h₉]
                    rw [hesc, List.cons_append, List.nil_append, parseStringBody.eq_def]
                    simp [h₁, h₂, h₉, parseStringBody_escape cs rest]

theorem digitChar_toNat (d : Nat) (h : d < 10) : (digitChar d).toNat = 48 + d :=
  char_toNat_ofNat _ (by omega)

theorem digitChar_isDigit (d : Nat) (h : d < 10) : (digitChar d).isDigit = true := by
  rw [char_isDigit_iff, digitChar_toNat d h]
  omega

theorem natChars_ne_nil (n : Nat) : natChars n ≠ [] := by
  simp only [natChars]
  by_cases h : n = 0
  · simp [h]
  · rw [if_neg h]
    simp only [ne_eq, List.reverse_eq_nil_iff, List.map_eq_nil_iff]
    exact Nat.digits_ne_nil_iff_ne_zero.mpr h

theorem natChars_digits (n : Nat) : ∀ c ∈ natChars n, c.isDigit = true := by
  intro c hc
  simp only [natChars] at hc
  by_cases h : n = 0
  · rw [if_pos h] at hc
    rw [List.mem_singleton.mp hc]
    decide
  · rw [if_neg h, List.mem_reverse] at hc
    obtain ⟨d, hd, rfl⟩ := List.mem_map.mp hc
    exact digitChar_isDigit d (Nat.digits_lt_base (by norm_num) hd)

theorem foldl_digits (n : Nat) : ∀ acc : Nat,
    (((Nat.digits 10 n).map digitChar).reverse).foldl (fun a c => 10 * a + (c.toNat - 48)) acc =
      acc * 10 ^ (Nat.digits 10 n).length + n := by
  induction n using Nat.strong_induction_on with
  | _ n ih =>
    intro acc
    by_cases h : n = 0
    · subst h
      simp
    · rw [Nat.digits_def' (by norm_num : (1 : Nat) < 10) (Nat.pos_of_ne_zero h)]
      rw [List.map_cons, List.reverse_cons, List.foldl_append]
      rw [ih (n / 10) (Nat.div_lt_self (Nat.pos_of_ne_zero h) (by norm_num)) acc]
      rw [List.foldl_cons, List.foldl_nil]
      rw [digitChar_toNat (n % 10) (Nat.mod_lt _ (by norm_num))]
      rw [List.length_cons, pow_succ]
      have h48 : 48 + n % 10 - 48 = n % 10 := by omega
      rw [h48]
      have hmul : 10 * (acc * 10 ^ (Nat.digits 10 (n / 10)).length + n / 10) =
          acc * (10 ^ (Nat.digits 10 (n / 10)).length * 10) + 10 * (n / 10) := by ring
      rw [hmul]
      omega

theorem takeWhile_append_of_all {p : Char → Bool} : ∀ (a b : List Char),
    (∀ c ∈ a, p c = true) → (∀ c, b.head? = some c → p c = false) →
    (a ++ b).takeWhile p = a
  | [], b, _, hb => by
    cases b with
    | nil => rfl
    | cons x xs =>
      rw [List.nil_append, List.takeWhile_cons, hb x rfl, if_neg Bool.false_ne_true]
  | c :: cs, b, ha, hb => by
    rw [List.cons_append, List.takeWhile_cons, ha c (List.mem_cons_self _ _), if_pos rfl,
      takeWhile_append_of_all cs b (fun d hd => ha d (List.mem_cons_of_mem _ hd)) hb]

theorem dropWhile_append_of_all {p : Char → Bool} : ∀ (a b : List Char),
    (∀ c ∈ a, p c = true) → (∀ c, b.head? = some c → p c = false) →
    (a ++ b).dropWhile p = b
  | [], b, _, hb => by
    cases b with
    | nil => rfl
    | cons x xs =>
      rw [List.nil_append, List.dropWhile_cons, hb x rfl, if_neg Bool.false_ne_true]
  | c :: cs, b, ha, hb => by
    rw [List.cons_append, List.dropWhile_cons, ha c (List.mem_cons_self _ _), if_pos rfl,
      dropWhile_append_of_all cs b (fun d hd => ha d (List.mem_cons_of_mem _ hd)) hb]

theorem parseDigits_natChars (n : Nat) (rest : List Char)
    (hrest : ∀ c, rest.head? = some c → c.isDigit = false) :
    parseDigits (natChars n ++ rest) = some (n, rest) := by
  have htake : (natChars n ++ rest).takeWhile Char.isDigit = natChars n :=
    takeWhile_append_of_all _ _ (natChars_digits n) hrest
  have hdrop : (natChars n ++ rest).dropWhile Char.isDigit = rest :=
    dropWhile_append_of_all _ _ (natChars_digits n) hrest
  simp only [parseDigits]
  rw [htake, hdrop, if_neg (natChars_ne_nil n)]
  have hfold : (natChars n).foldl (fun a c => 10 * a + (c.toNat - 48)) 0 = n := by
    by_cases h : n = 0
    · subst h
      simp [natChars]
    · simp only [natChars]
      rw [if_neg h, foldl_digits n 0]
      simp
  rw [hfold]

theorem serJson_head (d : Nat) (v : Json) :
    ∃ c t, serJson d v = c :: t ∧ isJsonWs c = false ∧ c ≠ ']' ∧ c ≠ '\x7d' := by
  cases v with
  | null => exact ⟨'n', ['u', 'l', 'l'], by simp [serJson], by decide, by decide, by decide⟩
  | bool b =>
    cases b with
    | true =>
      exact ⟨'t', ['r', 'u', 'e'], by simp [serJson], by decide, by decide, by decide⟩
    | false =>
      exact ⟨'f', ['a', 'l', 's', 'e'], by simp [serJson], by decide, by decide, by decide⟩
  | num i =>
    by_cases h : i < 0
    · exact ⟨'-', natChars i.natAbs, by simp [serJson, intChars, h], by decide, by decide,
        by decide⟩
    · obtain ⟨c, t, hct⟩ : ∃ c t, natChars i.natAbs = c :: t := by
        cases hn : natChars i.natAbs with
        | nil => exact absurd hn (natChars_ne_nil _)
        | cons c t => exact ⟨c, t, rfl⟩
      have hcd : c.isDigit = true :=
        natChars_digits _ c (by rw [hct]; exact List.mem_cons_self _ _)
      refine ⟨c, t, by simp [serJson, intChars, h, hct], isJsonWs_of_digit c hcd, ?_, ?_⟩
      · exact digit_ne c hcd ']' (by decide)
      · exact digit_ne c hcd '\x7d' (by decide)
  | str s =>
    exact ⟨'"', s.data.flatMap escapeJsonChar ++ ['"'], by simp [serJson, quoteJsonString],
      by decide, by decide, by decide⟩
  | arr xs =>
    cases xs with
    | nil => exact ⟨'[', [']'], by simp [serJson], by decide, by decide, by decide⟩
    | cons x xs =>
      exact ⟨'[', '\n' :: (indentChars (d + 1) ++ serJson (d + 1) x ++
        serArrRest (d + 1) xs ++ '\n' :: (indentChars d ++ [']'])), by simp [serJson],
        by decide, by decide, by decide⟩
  | obj fs =>
    cases fs with
    | nil => exact ⟨'\x7b', ['\x7d'], by simp [serJson], by decide, by decide, by decide⟩
    | cons f fs =>
      obtain ⟨k, v⟩ := f
      exact ⟨'\x7b', '\n' :: (indentChars (d + 1) ++ quoteJsonString k.data ++
        ':' :: ' ' :: (serJson (d + 1) v ++ serObjRest (d + 1) fs ++
          '\n' :: (indentChars d ++ ['\x7d']))), by simp [serJson], by decide, by decide,
        by decide⟩

theorem sizeJ_pos (v : Json) : 0 < sizeJ v := by
  cases v <;> simp [sizeJ]

theorem sizeL_pos (xs : List Json) : 0 < sizeL xs := by
  cases xs <;> simp [sizeL]

theorem sizeF_pos (fs : List (String × Json)) : 0 < sizeF fs := by
  cases fs with
  | nil => simp [sizeF]
  | cons f fs => obtain ⟨k, v⟩ := f; simp [sizeF]

mutual

theorem sizeJ_le_length : ∀ (v : Json) (d : Nat), sizeJ v ≤ (serJson d v).length
  | .null, d => by simp [serJson, sizeJ]
  | .bool b, d => by cases b <;> simp [serJson, sizeJ]
  | .num i, d => by
    have hlen : 1 ≤ (natChars i.natAbs).length := by
      cases hn : natChars i.natAbs with
      | nil => exact absurd hn (natChars_ne_nil _)
      | cons c t => simp
    by_cases h : i < 0 <;> simp [serJson, sizeJ, intChars, h] <;> omega
  | .str s, d => by
    simp [serJson, sizeJ, quoteJsonString]
  | .arr [], d => by simp [serJson, sizeJ, sizeL]
  | .arr (x :: xs), d => by
    have h₁ := sizeJ_le_length x (d + 1)
    have h₂ := sizeL_le_length xs (d + 1)
    simp only [serJson, sizeJ, sizeL, List.length_cons, List.length_append, indentChars,
      List.length_replicate]
    omega
  | .obj [], d => by simp [serJson, sizeJ, sizeF]
  | .obj ((k, v) :: fs), d => by
    have h₁ := sizeJ_le_length v (d + 1)
    have h₂ := sizeF_le_length fs (d + 1)
    simp only [serJson, sizeJ, sizeF, List.length_cons, List.length_append, indentChars,
      List.length_replicate]
    omega

theorem sizeL_le_length : ∀ (xs : List Json) (d : Nat),
    sizeL xs ≤ (serArrRest d xs).length + 2
  | [], d => by simp [sizeL, serArrRest]
  | x :: xs, d => by
    have h₁ := sizeJ_le_length x d
    have h₂ := sizeL_le_length xs d
    simp only [sizeL, serArrRest, List.length_cons, List.length_append, indentChars,
      List.length_replicate]
    omega

theorem sizeF_le_length : ∀ (fs : List (String × Json)) (d : Nat),
    sizeF fs ≤ (serObjRest d fs).length + 2
  | [], d => by simp [sizeF, serObjRest]
  | (k, v) :: fs, d => by
    have h₁ := sizeJ_le_length v d
    have h₂ := sizeF_le_length fs d
    simp only [sizeF, serObjRest, List.length_cons, List.length_append, indentChars,
      List.length_replicate]
    omega

end

theorem string_mk_data (s : String) : String.mk s.data = s := rfl

theorem head_not_digit_ws_close (ws : List Char) (h : ∀ c ∈ ws, isJsonWs c = true)
    (close : Char) (hclose : close.isDigit = false) (rest : List Char) :
    ∀ c, (ws ++ close :: rest).head? = some c → c.isDigit = false := by
  intro c hc
  cases ws with
  | nil =>
    simp only [List.nil_append, List.head?_cons, Option.some.injEq] at hc
    rw [← hc]
    exact hclose
  | cons w ws' =>
    simp only [List.cons_append, List.head?_cons, Option.some.injEq] at hc
    have hw := (isJsonWs_toNat w).1 (h w (List.mem_cons_self _ _))
    rw [← hc]
    cases hd : w.isDigit
    · rfl
    · exfalso
      have hdig := (char_isDigit_iff w).1 hd
      rcases hw with h1 | h1 | h1 | h1 <;> omega

theorem single_space_ws : ∀ c ∈ [' '], isJsonWs c = true := by
  intro c hc
  simp only [List.mem_singleton] at hc
  rw [hc]
  rfl

mutual

theorem parse_serJson : ∀ (v : Json) (fuel d : Nat) (rest : List Char),
    sizeJ v < fuel → (∀ c, rest.head? = some c → c.isDigit = false) →
    parseValue fuel (serJson d v ++ rest) = some (v, rest)
  | _, 0, _, _, hfuel, _ => absurd hfuel (Nat.not_lt_zero _)
  | .null, fuel + 1, d, rest, _, _ => by
    have h0 : serJson d Json.null ++ rest = 'n' :: ('u' :: 'l' :: 'l' :: rest) := by
      simp [serJson]
    rw [h0, parseValue_cons fuel _ _ (by decide), parseValueCore.eq_def]
    simp
  | .bool true, fuel + 1, d, rest, _, _ => by
    have h0 : serJson d (Json.bool true) ++ rest = 't' :: ('r' :: 'u' :: 'e' :: rest) := by
      simp [serJson]
    rw [h0, parseValue_cons fuel _ _ (by decide), parseValueCore.eq_def]
    simp
  | .bool false, fuel + 1, d, rest, _, _ => by
    have h0 : serJson d (Json.bool false) ++ rest =
        'f' :: ('a' :: 'l' :: 's' :: 'e' :: rest) := by
      simp [serJson]
    rw [h0, parseValue_cons fuel _ _ (by decide), parseValueCore.eq_def]
    simp
  | .num i, fuel + 1, d, rest, _, hrest => by
    by_cases hneg : i < 0
    · have h0 : serJson d (Json.num i) ++ rest = '-' :: (natChars i.natAbs ++ rest) := by
        simp [serJson, intChars, hneg]
      rw [h0, parseValue_cons fuel _ _ (by decide), parseValueCore.eq_def]
      rw [if_neg (by decide : ¬('-' : Char) = 'n'), if_neg (by decide : ¬('-' : Char) = 't'),
        if_neg (by decide : ¬('-' : Char) = 'f'), if_neg (by decide : ¬('-' : Char) = '"'),
        if_pos rfl, parseDigits_natChars i.natAbs rest hrest]
      simp only [Option.map_some']
      have hi : -(i.natAbs : Int) = i := by omega
      rw [hi]
    · obtain ⟨c, t, hct⟩ : ∃ c t, natChars i.natAbs = c :: t := by
        cases hn : natChars i.natAbs with
        | nil => exact absurd hn (natChars_ne_nil _)
        | cons c t => exact ⟨c, t, rfl⟩
      have hcd : c.isDigit = true :=
        natChars_digits _ c (by rw [hct]; exact List.mem_cons_self _ _)
      have h0 : serJson d (Json.num i) ++ rest = c :: (t ++ rest) := by
        simp [serJson, intChars, hneg, hct]
      rw [h0, parseValue_cons fuel _ _ (isJsonWs_of_digit c hcd), parseValueCore.eq_def]
      rw [if_neg (digit_ne c hcd 'n' (by decide)), if_neg (digit_ne c hcd 't' (by decide)),
        if_neg (digit_ne c hcd 'f' (by decide)), if_neg (digit_ne c hcd '"' (by decide)),
        if_neg (digit_ne c hcd '-' (by decide)), if_pos hcd]
      have hl : c :: (t ++ rest) = natChars i.natAbs ++ rest := by
        rw [hct, List.cons_append]
      rw [hl, parseDigits_natChars i.natAbs rest hrest]
      simp only [Option.map_some']
      have hi : (i.natAbs : Int) = i := by omega
      rw [hi]
  | .str s, fuel + 1, d, rest, _, _ => by
    have h0 : serJson d (Json.str s) ++ rest =
        '"' :: (s.data.flatMap escapeJsonChar ++ '"' :: rest) := by
      simp [serJson, quoteJsonString]
    rw [h0, parseValue_cons fuel _ _ (by decide), parseValueCore.eq_def]
    rw [if_neg (by decide : ¬('"' : Char) = 'n'), if_neg (by decide : ¬('"' : Char) = 't'),
      if_neg (by decide : ¬('"' : Char) = 'f'), if_pos rfl,
      parseStringBody_escape s.data rest]
    simp only [Option.map_some']
  | .arr [], fuel + 1, d, rest, _, _ => by
    have h0 : serJson d (Json.arr []) ++ rest = '[' :: (']' :: rest) := by
      simp [serJson]
    rw [h0, parseValue_cons fuel _ _ (by decide), parseValueCore.eq_def]
    rw [if_neg (by decide : ¬('[' : Char) = 'n'), if_neg (by decide : ¬('[' : Char) = 't'),
      if_neg (by decide : ¬('[' : Char) = 'f'), if_neg (by decide : ¬('[' : Char) = '"'),
      if_neg (by decide : ¬('[' : Char) = '-'),
      if_neg (by decide : ¬('[' : Char).isDigit = true), if_pos rfl,
      skipWs_cons_of_neg rest (by decide), if_pos List.head?_cons, List.tail_cons]
  | .arr (x :: xs), fuel + 1, d, rest, hfuel, _ => by
    obtain ⟨c, t, hct, hcw, hcne, _⟩ := serJson_head (d + 1) x
    have h0 : serJson d (Json.arr (x :: xs)) ++ rest =
        '[' :: (('\n' :: indentChars (d + 1)) ++ (serJson (d + 1) x ++
          (serArrRest (d + 1) xs ++ (('\n' :: indentChars d) ++ (']' :: rest))))) := by
      simp [serJson, List.append_assoc]
    have hskip : skipWs (('\n' :: indentChars (d + 1)) ++ (serJson (d + 1) x ++
        (serArrRest (d + 1) xs ++ (('\n' :: indentChars d) ++ (']' :: rest))))) =
        c :: (t ++ (serArrRest (d + 1) xs ++ (('\n' :: indentChars d) ++ (']' :: rest)))) := by
      rw [skipWs_append_of_ws _ _ (nlIndent_ws (d + 1)), hct, List.cons_append,
        skipWs_cons_of_neg _ hcw]
    have helems := parse_serElems x xs fuel (d + 1) ('\n' :: indentChars (d + 1))
      ('\n' :: indentChars d) rest (by simp only [sizeJ] at hfuel; omega)
      (nlIndent_ws (d + 1)) (nlIndent_ws d)
    rw [h0, parseValue_cons fuel _ _ (by decide), parseValueCore.eq_def]
    rw [if_neg (by decide : ¬('[' : Char) = 'n'), if_neg (by decide : ¬('[' : Char) = 't'),
      if_neg (by decide : ¬('[' : Char) = 'f'), if_neg (by decide : ¬('[' : Char) = '"'),
      if_neg (by decide : ¬('[' : Char) = '-'),
      if_neg (by decide : ¬('[' : Char).isDigit = true), if_pos rfl]
    rw [if_neg (by rw [hskip]; simp only [List.head?_cons, Option.some.injEq]; exact hcne)]
    rw [helems]
    simp only [Option.map_some']
  | .obj [], fuel + 1, d, rest, _, _ => by
    have h0 : serJson d (Json.obj []) ++ rest = '\x7b' :: ('\x7d' :: rest) := by
      simp [serJson]
    rw [h0, parseValue_cons fuel _ _ (by decide), parseValueCore.eq_def]
    rw [if_neg (by decide : ¬('\x7b' : Char) = 'n'), if_neg (by decide : ¬('\x7b' : Char) = 't'),
      if_neg (by decide : ¬('\x7b' : Char) = 'f'), if_neg (by decide : ¬('\x7b' : Char) = '"'),
      if_neg (by decide : ¬('\x7b' : Char) = '-'),
      if_neg (by decide : ¬('\x7b' : Char).isDigit = true),
      if_neg (by decide : ¬('\x7b' : Char) = '['), if_pos rfl,
      skipWs_cons_of_neg rest (by decide), if_pos List.head?_cons, List.tail_cons]
  | .obj ((k, v) :: fs), fuel + 1, d, rest, hfuel, _ => by
    have h0 : serJson d (Json.obj ((k, v) :: fs)) ++ rest =
        '\x7b' :: (('\n' :: indentChars (d + 1)) ++ (quoteJsonString k.data ++
          (':' :: ' ' :: (serJson (d + 1) v ++ (serObjRest (d + 1) fs ++
            (('\n' :: indentChars d) ++ ('\x7d' :: rest))))))) := by
      simp [serJson, List.append_assoc]
    have hskip : skipWs (('\n' :: indentChars (d + 1)) ++ (quoteJsonString k.data ++
        (':' :: ' ' :: (serJson (d + 1) v ++ (serObjRest (d + 1) fs ++
          (('\n' :: indentChars d) ++ ('\x7d' :: rest))))))) =
        '"' :: ((k.data.flatMap escapeJsonChar ++ ['"']) ++
          (':' :: ' ' :: (serJson (d + 1) v ++ (serObjRest (d + 1) fs ++
            (('\n' :: indentChars d) ++ ('\x7d' :: rest)))))) := by
      rw [skipWs_append_of_ws _ _ (nlIndent_ws (d + 1))]
      rw [show quoteJsonString k.data = '"' :: (k.data.flatMap escapeJsonChar ++ ['"']) from
        rfl]
      rw [List.cons_append, skipWs_cons_of_neg _ (by decide)]
    have hfields := parse_serFields k v fs fuel (d + 1) ('\n' :: indentChars (d + 1))
      ('\n' :: indentChars d) rest (by simp only [sizeJ] at hfuel; omega)
      (nlIndent_ws (d + 1)) (nlIndent_ws d)
    rw [h0, parseValue_cons fuel _ _ (by decide), parseValueCore.eq_def]
    rw [if_neg (by decide : ¬('\x7b' : Char) = 'n'), if_neg (by decide : ¬('\x7b' : Char) = 't'),
      if_neg (by decide : ¬('\x7b' : Char) = 'f'), if_neg (by decide : ¬('\x7b' : Char) = '"'),
      if_neg (by decide : ¬('\x7b' : Char) = '-'),
      if_neg (by decide : ¬('\x7b' : Char).isDigit = true),
      if_neg (by decide : ¬('\x7b' : Char) = '['), if_pos rfl]
    rw [if_neg (by rw [hskip]; simp only [List.head?_cons, Option.some.injEq]; decide)]
    rw [hfields]
    simp only [Option.map_some']

theorem parse_serElems : ∀ (x : Json) (xs : List Json) (fuel d : Nat)
    (lead ws rest : List Char), sizeL (x :: xs) < fuel →
    (∀ c ∈ lead, isJsonWs c = true) → (∀ c ∈ ws, isJsonWs c = true) →
    parseElems fuel (lead ++ (serJson d x ++ (serArrRest d xs ++ (ws ++ (']' :: rest))))) =
      some (x :: xs, rest)
  | _, _, 0, _, _, _, _, hfuel, _, _ => absurd hfuel (Nat.not_lt_zero _)
  | x, [], fuel + 1, d, lead, ws, rest, hfuel, hlead, hws => by
    have h1 : serArrRest d ([] : List Json) ++ (ws ++ (']' :: rest)) = ws ++ (']' :: rest) := by
      simp [serArrRest]
    have hv : parseValue fuel (lead ++ (serJson d x ++ (serArrRest d ([] : List Json) ++
        (ws ++ (']' :: rest))))) = some (x, serArrRest d ([] : List Json) ++
          (ws ++ (']' :: rest))) := by
      rw [parseValue_ws fuel lead _ hlead, h1]
      exact parse_serJson x fuel d _ (by simp only [sizeL] at hfuel; omega)
        (head_not_digit_ws_close ws hws ']' (by decide) rest)
    have hskip : skipWs (serArrRest d ([] : List Json) ++ (ws ++ (']' :: rest))) =
        ']' :: rest := by
      rw [h1, skipWs_append_of_ws _ _ hws, skipWs_cons_of_neg _ (by decide)]
    simp only [parseElems]
    rw [hv]
    simp [hskip]
  | x, x' :: xs', fuel + 1, d, lead, ws, rest, hfuel, hlead, hws => by
    have harr : serArrRest d (x' :: xs') ++ (ws ++ (']' :: rest)) =
        ',' :: (('\n' :: indentChars d) ++ (serJson d x' ++ (serArrRest d xs' ++
          (ws ++ (']' :: rest))))) := by
      simp [serArrRest, List.append_assoc]
    have hv : parseValue fuel (lead ++ (serJson d x ++ (serArrRest d (x' :: xs') ++
        (ws ++ (']' :: rest))))) = some (x, serArrRest d (x' :: xs') ++
          (ws ++ (']' :: rest))) := by
      rw [parseValue_ws fuel lead _ hlead]
      refine parse_serJson x fuel d _ (by simp only [sizeL] at hfuel; omega) ?_
      intro c hc
      rw [harr] at hc
      simp only [List.head?_cons, Option.some.injEq] at hc
      rw [← hc]
      decide
    have hskip : skipWs (serArrRest d (x' :: xs') ++ (ws ++ (']' :: rest))) =
        ',' :: (('\n' :: indentChars d) ++ (serJson d x' ++ (serArrRest d xs' ++
          (ws ++ (']' :: rest))))) := by
      rw [harr, skipWs_cons_of_neg _ (by decide)]
    have hrec := parse_serElems x' xs' fuel d ('\n' :: indentChars d) ws rest
      (by simp only [sizeL] at hfuel ⊢; omega) (nlIndent_ws d) hws
    rw [List.cons_append] at hrec
    simp only [parseElems]
    rw [hv]
    simp [hskip, hrec]

theorem parse_serFields : ∀ (k : String) (v : Json) (fs : List (String × Json))
    (fuel d : Nat) (lead ws rest : List Char), sizeF ((k, v) :: fs) < fuel →
    (∀ c ∈ lead, isJsonWs c = true) → (∀ c ∈ ws, isJsonWs c = true) →
    parseFields fuel (lead ++ (quoteJsonString k.data ++ (':' :: ' ' :: (serJson d v ++
      (serObjRest d fs ++ (ws ++ ('\x7d' :: rest))))))) = some ((k, v) :: fs, rest)
  | _, _, _, 0, _, _, _, _, hfuel, _, _ => absurd hfuel (Nat.not_lt_zero _)
  | k, v, [], fuel + 1, d, lead, ws, rest, hfuel, hlead, hws => by
    have hskip1 : skipWs (lead ++ (quoteJsonString k.data ++ (':' :: ' ' :: (serJson d v ++
        (serObjRest d ([] : List (String × Json)) ++ (ws ++ ('\x7d' :: rest))))))) =
        '"' :: ((k.data.flatMap escapeJsonChar ++ ['"']) ++ (':' :: ' ' :: (serJson d v ++
          (serObjRest d ([] : List (String × Json)) ++ (ws ++ ('\x7d' :: rest)))))) := by
      rw [skipWs_append_of_ws _ _ hlead]
      rw [show quoteJsonString k.data = '"' :: (k.data.flatMap escapeJsonChar ++ ['"']) from
        rfl]
      rw [List.cons_append, skipWs_cons_of_neg _ (by decide)]
    have hX : (k.data.flatMap escapeJsonChar ++ ['"']) ++ (':' :: ' ' :: (serJson d v ++
        (serObjRest d ([] : List (String × Json)) ++ (ws ++ ('\x7d' :: rest))))) =
        k.data.flatMap escapeJsonChar ++ ('"' :: (':' :: ' ' :: (serJson d v ++
          (serObjRest d ([] : List (String × Json)) ++ (ws ++ ('\x7d' :: rest)))))) := by
      simp [List.append_assoc]
    have hO : serObjRest d ([] : List (String × Json)) ++ (ws ++ ('\x7d' :: rest)) =
        ws ++ ('\x7d' :: rest) := by
      simp [serObjRest]
    have hv : parseValue fuel (' ' :: (serJson d v ++ (serObjRest d
        ([] : List (String × Json)) ++ (ws ++ ('\x7d' :: rest))))) =
        some (v, serObjRest d ([] : List (String × Json)) ++ (ws ++ ('\x7d' :: rest))) := by
      rw [show (' ' :: (serJson d v ++ (serObjRest d ([] : List (String × Json)) ++
        (ws ++ ('\x7d' :: rest))))) = [' '] ++ (serJson d v ++ (serObjRest d
          ([] : List (String × Json)) ++ (ws ++ ('\x7d' :: rest)))) from rfl]
      rw [parseValue_ws fuel [' '] _ single_space_ws]
      rw [hO]
      exact parse_serJson v fuel d _ (by simp only [sizeF] at hfuel; omega)
        (head_not_digit_ws_close ws hws '\x7d' (by decide) rest)
    have hskip3 : skipWs (serObjRest d ([] : List (String × Json)) ++
        (ws ++ ('\x7d' :: rest))) = '\x7d' :: rest := by
      rw [hO, skipWs_append_of_ws _ _ hws, skipWs_cons_of_neg _ (by decide)]
    simp only [parseFields]
    rw [hskip1, if_pos List.head?_cons, List.tail_cons, hX, parseStringBody_escape k.data _]
    have hskip2 : skipWs (':' :: ' ' :: (serJson d v ++ (serObjRest d
        ([] : List (String × Json)) ++ (ws ++ ('\x7d' :: rest))))) =
        ':' :: ' ' :: (serJson d v ++ (serObjRest d ([] : List (String × Json)) ++
          (ws ++ ('\x7d' :: rest)))) := skipWs_cons_of_neg _ (by decide)
    simp [hskip2, hv, hskip3, string_mk_data]
  | k, v, (k', v') :: fs', fuel + 1, d, lead, ws, rest, hfuel, hlead, hws => by
    have hskip1 : skipWs (lead ++ (quoteJsonString k.data ++ (':' :: ' ' :: (serJson d v ++
        (serObjRest d ((k', v') :: fs') ++ (ws ++ ('\x7d' :: rest))))))) =
        '"' :: ((k.data.flatMap escapeJsonChar ++ ['"']) ++ (':' :: ' ' :: (serJson d v ++
          (serObjRest d ((k', v') :: fs') ++ (ws ++ ('\x7d' :: rest)))))) := by
      rw [skipWs_append_of_ws _ _ hlead]
      rw [show quoteJsonString k.data = '"' :: (k.data.flatMap escapeJsonChar ++ ['"']) from
        rfl]
      rw [List.cons_append, skipWs_cons_of_neg _ (by decide)]
    have hX : (k.data.flatMap escapeJsonChar ++ ['"']) ++ (':' :: ' ' :: (serJson d v ++
        (serObjRest d ((k', v') :: fs') ++ (ws ++ ('\x7d' :: rest))))) =
        k.data.flatMap escapeJsonChar ++ ('"' :: (':' :: ' ' :: (serJson d v ++
          (serObjRest d ((k', v') :: fs') ++ (ws ++ ('\x7d' :: rest)))))) := by
      simp [List.append_assoc]
    have hobj : serObjRest d ((k', v') :: fs') ++ (ws ++ ('\x7d' :: rest)) =
        ',' :: (('\n' :: indentChars d) ++ (quoteJsonString k'.data ++ (':' :: ' ' ::
          (serJson d v' ++ (serObjRest d fs' ++ (ws ++ ('\x7d' :: rest))))))) := by
      simp [serObjRest, quoteJsonString, List.append_assoc]
    have hv : parseValue fuel (' ' :: (serJson d v ++ (serObjRest d ((k', v') :: fs') ++
        (ws ++ ('\x7d' :: rest))))) =
        some (v, serObjRest d ((k', v') :: fs') ++ (ws ++ ('\x7d' :: rest))) := by
      rw [show (' ' :: (serJson d v ++ (serObjRest d ((k', v') :: fs') ++
        (ws ++ ('\x7d' :: rest))))) = [' '] ++ (serJson d v ++ (serObjRest d
          ((k', v') :: fs') ++ (ws ++ ('\x7d' :: rest)))) from rfl]
      rw [parseValue_ws fuel [' '] _ single_space_ws]
      refine parse_serJson v fuel d _ (by simp only [sizeF] at hfuel; omega) ?_
      intro c hc
      rw [hobj] at hc
      simp only [List.head?_cons, Option.some.injEq] at hc
      rw [← hc]
      decide
    have hskip3 : skipWs (serObjRest d ((k', v') :: fs') ++ (ws ++ ('\x7d' :: rest))) =
        ',' :: (('\n' :: indentChars d) ++ (quoteJsonString k'.data ++ (':' :: ' ' ::
          (serJson d v' ++ (serObjRest d fs' ++ (ws ++ ('\x7d' :: rest))))))) := by
      rw [hobj, skipWs_cons_of_neg _ (by decide)]
    have hrec := parse_serFields k' v' fs' fuel d ('\n' :: indentChars d) ws rest
      (by simp only [sizeF] at hfuel ⊢; omega) (nlIndent_ws d) hws
    rw [List.cons_append] at hrec
    simp only [parseFields]
    rw [hskip1, if_pos List.head?_cons, List.tail_cons, hX, parseStringBody_escape k.data _]
    have hskip2 : skipWs (':' :: ' ' :: (serJson d v ++ (serObjRest d ((k', v') :: fs') ++
        (ws ++ ('\x7d' :: rest))))) =
        ':' :: ' ' :: (serJson d v ++ (serObjRest d ((k', v') :: fs') ++
          (ws ++ ('\x7d' :: rest)))) := skipWs_cons_of_neg _ (by decide)
    simp [hskip2, hv, hskip3, hrec, string_mk_data]

end

/-- **C7.** Manifest persistence round trip: `PackageHelper.save` writes
`JSON.stringify(content, null, '  ')` plus a trailing newline, and loading
that file back through `JSON.parse` recovers the saved content exactly —
every field, including unknown/passthrough keys, since the whole document
is serialized and re-parsed generically. -/
theorem save_load_roundTrip (content : Json) :
    loadContent (saveContent content) = some content ∧
    (saveContent content).data = serJson 0 content ++ ['\n'] := by
  have hdata : (saveContent content).data = serJson 0 content ++ ['\n'] := rfl
  refine ⟨?_, hdata⟩
  have hlength : (saveContent content).length = (serJson 0 content).length + 1 := by
    rw [show (saveContent content).length = (saveContent content).data.length from rfl, hdata]
    simp
  have hparse := parse_serJson content ((serJson 0 content).length + 1 + 1) 0 ['\n']
    (by have := sizeJ_le_length content 0; omega)
    (by intro c hc; simp only [List.head?_cons, Option.some.injEq] at hc; rw [← hc]; decide)
  rw [loadContent, jsonParse, hlength, hdata, hparse]
  simp [show skipWs ['\n'] = [] from rfl]

end Aside
